import Mathlib

/-!
Verification of the Forge 2D engine core (scene graph, renderer compositor,
image pools, identity registry) against its natural-language specification.

The Python sources are shallowly embedded: Python floats are modelled as
rationals, Python lists as Lean lists, Python sets and dicts as lists with
explicit membership, and raised exceptions as explicit error values produced
exactly where the source raises.  The state mutated by a method is threaded
explicitly through the embedded functions.
-/

set_option maxRecDepth 8192

set_option allowUnsafeReducibility true

attribute [semireducible] Rat.add Rat.sub Rat.mul Rat.neg Rat.normalize Rat.inv Rat.ofScientific

/-! ## Definitions -/

/-- Decidable equality for Except values, used to evaluate the embedded
operations at concrete inputs. -/
instance {ε α : Type} [DecidableEq ε] [DecidableEq α] : DecidableEq (Except ε α) := fun a b =>
  match a, b with
  | .error e, .error f =>
      if h : e = f then .isTrue (by rw [h]) else .isFalse (by intro hc; cases hc; exact h rfl)
  | .ok x, .ok y =>
      if h : x = y then .isTrue (by rw [h]) else .isFalse (by intro hc; cases hc; exact h rfl)
  | .error _, .ok _ => .isFalse (by intro hc; cases hc)
  | .ok _, .error _ => .isFalse (by intro hc; cases hc)

/-- Python exceptions raised by the embedded code, one constructor per
concrete exception class appearing in the modelled sources. -/
inductive PyErr where
  | valueError
  | keyError
  | attributeError
  | syntaxError
  | bodyAreaError
  | idNotFoundError
  | eventNameError
  | internalEventDeletionError
  | eventNotRegisteredError
deriving DecidableEq, Repr

/-- Two-dimensional vector, from forge.core.physics.vector.Vector2D.
The float components are modelled as rationals. -/
structure Vec2 where
  x : ℚ
  y : ℚ
deriving DecidableEq, Repr

/-- Componentwise addition, Vector2D.__add__ and __iadd__. -/
def Vec2.add (a b : Vec2) : Vec2 := ⟨a.x + b.x, a.y + b.y⟩

/-- Componentwise subtraction, Vector2D.__sub__ and __isub__. -/
def Vec2.sub (a b : Vec2) : Vec2 := ⟨a.x - b.x, a.y - b.y⟩

instance : Add Vec2 := ⟨Vec2.add⟩
instance : Sub Vec2 := ⟨Vec2.sub⟩

/-- The zero vector, the neutral displacement. -/
def Vec2.zero : Vec2 := ⟨0, 0⟩

/-- Scene-graph node, from forge.hearth.elements.base: a Shape or UIElement
with its unique id, its top-left point, the cached previous top-left
position used for displacement propagation, and its ordered children.
Shape.update and UIElement.update have the same value-level semantics (the
copy in Shape.update only matters for Python object aliasing, which a value
model does not express), so one node type covers both. -/
inductive Node where
  | mk (nid : Nat) (topLeft prevPos : Vec2) (children : List Node)

def Node.nid : Node → Nat
  | .mk n _ _ _ => n

def Node.topLeft : Node → Vec2
  | .mk _ tl _ _ => tl

def Node.prevPos : Node → Vec2
  | .mk _ _ pv _ => pv

def Node.children : Node → List Node
  | .mk _ _ _ cs => cs

mutual
/-- Number of nodes in a tree. -/
def nodeCount : Node → Nat
  | .mk _ _ _ cs => 1 + forestCount cs
/-- Number of nodes in a forest. -/
def forestCount : List Node → Nat
  | [] => 0
  | c :: cs => nodeCount c + forestCount cs
end

/-- Displacement applied to the top-left of a single node: one loop
iteration "child.top_left += displacement" of Shape.update. -/
def shiftTopLeft (d : Vec2) : Node → Node
  | .mk n tl pv cs => .mk n (tl + d) pv cs

mutual
/-- Shape.update / UIElement.update of forge.hearth.elements.base: when the
top-left differs from the cached previous position, every child receives the
displacement and the cached position is refreshed to the current top-left;
afterwards every child is updated in turn.  The source first shifts all
children and then updates each one; since shifting and updating one child
never touches its siblings, the two loops are fused here into one pass
(updateShifted d c is literally Node.update (shiftTopLeft d c), unfolded so
that the recursion stays structural). -/
def Node.update : Node → Node
  | .mk n tl pv cs =>
    if tl ≠ pv then .mk n tl tl (shiftUpdateForest (tl - pv) cs)
    else .mk n tl pv (updateForest cs)
/-- The pair of loops of Shape.update applied to the children list. -/
def shiftUpdateForest (d : Vec2) : List Node → List Node
  | [] => []
  | c :: cs => updateShifted d c :: shiftUpdateForest d cs
/-- Node.update (shiftTopLeft d c), with shiftTopLeft unfolded. -/
def updateShifted (d : Vec2) : Node → Node
  | .mk n tl pv cs =>
    if tl + d ≠ pv then .mk n (tl + d) (tl + d) (shiftUpdateForest ((tl + d) - pv) cs)
    else .mk n (tl + d) pv (updateForest cs)
/-- The trailing loop of Shape.update: update every child. -/
def updateForest : List Node → List Node
  | [] => []
  | c :: cs => Node.update c :: updateForest cs
end

mutual
/-- A node is quiescent when its top-left equals its cached previous
position and all of its descendants are quiescent: the state of a subtree
none of whose nodes has moved since the last update pass. -/
def quiescentNode : Node → Bool
  | .mk _ tl pv cs => decide (tl = pv) && quiescentForest cs
/-- All nodes of the forest are quiescent. -/
def quiescentForest : List Node → Bool
  | [] => true
  | c :: cs => quiescentNode c && quiescentForest cs
end

mutual
/-- Every node of the tree has both its top-left and its cached previous
position translated by d: the specified outcome of propagating the
displacement d through a quiescent subtree. -/
def shiftAllNode (d : Vec2) : Node → Node
  | .mk n tl pv cs => .mk n (tl + d) (pv + d) (shiftAllForest d cs)
/-- shiftAllNode applied to every tree of the forest. -/
def shiftAllForest (d : Vec2) : List Node → List Node
  | [] => []
  | c :: cs => shiftAllNode d c :: shiftAllForest d cs
end

mutual
/-- Shape.render / UIElement.render as a draw trace: rendering a node draws
the node itself (the concrete subclasses blit their own primitive first) and
then recurses into the children in insertion order; the sequence records the
id of every node drawn, in order.  Children are rendered whenever the
auto-render-children policy is enabled, which is the regime of the claims
(hearth.settings is not part of the sources; the policy flag is taken to be
enabled throughout). -/
def renderSeq : Node → List Nat
  | .mk n _ _ cs => n :: renderSeqForest cs
/-- renderSeq over a forest, concatenated in order. -/
def renderSeqForest : List Node → List Nat
  | [] => []
  | c :: cs => renderSeq c ++ renderSeqForest cs
end

/-- UIRenderer.render of forge.core.engine.renderer, element walk: each
top-level element whose id is not yet in the visited set is rendered and its
id is added to the set, together with the ids of its direct children (the
auto-render-children branch); elements whose id is already in the set are
skipped.  The Python set of visited ids is modelled as a list queried by
membership; the result is the draw trace of node ids. -/
def uiRenderElements : List Node → List Nat → List Nat
  | [], _ => []
  | e :: es, vis =>
    if e.nid ∈ vis then uiRenderElements es vis
    else renderSeq e ++ uiRenderElements es (vis ++ e.nid :: (e.children.map Node.nid))

/-- Decomposition of a top-level element list against the visited-set walk of
UIRenderer.render: RootedConfig prev els R reads the remaining element list
els, with prev the roots already drawn, and collects in R (in listing order)
the elements of els that are roots.  Each element of els is either the next
root, or a direct child (by id) of a root already drawn — the configuration
in which every listed shared child follows a drawn parent. -/
inductive RootedConfig : List Node → List Node → List Node → Prop
  | nil (prev : List Node) : RootedConfig prev [] []
  | root (prev : List Node) (e : Node) (els R : List Node)
      (h : RootedConfig (prev ++ [e]) els R) : RootedConfig prev (e :: els) (e :: R)
  | child (prev : List Node) (e : Node) (els R : List Node) (p : Node)
      (hp : p ∈ prev) (hc : e.nid ∈ p.children.map Node.nid)
      (h : RootedConfig prev els R) : RootedConfig prev (e :: els) R

/-- MIN_BODY_AREA of forge.core.physics.world: 0.01 * 0.01. -/
def MIN_BODY_AREA : ℚ := 1 / 10000

/-- MAX_BODY_AREA of forge.core.physics.world: 64 * 64. -/
def MAX_BODY_AREA : ℚ := 4096

/-- math.pi as a rational stand-in (floats are modelled as rationals; the
exact value of the constant is irrelevant to the claims, which only need
circle areas to stay within the world bounds for moderate radii). -/
def ratPi : ℚ := 314159 / 100000

/-- Concrete geometry of a scene shape: the rectangle-like and circle-like
variants of the hearth shape classes, with the position fields each variant
stores (Rectangle keeps its top-left, Circle keeps its center). -/
inductive Geom where
  | rect (topLeft : Vec2) (width height : ℚ)
  | circle (center : Vec2) (radius : ℚ)
deriving DecidableEq, Repr

/-- The top_left property: a stored field for rectangles; center minus
(radius, radius) for circles, as in the Circle.top_left getter. -/
def Geom.topLeft : Geom → Vec2
  | .rect tl _ _ => tl
  | .circle c r => c - ⟨r, r⟩

/-- The top_left setter: rectangles store the value; circles set
center = value + (radius, radius), as in the Circle.top_left setter. -/
def Geom.setTopLeft : Geom → Vec2 → Geom
  | .rect _ w h, v => .rect v w h
  | .circle _ r, v => .circle (v + ⟨r, r⟩) r

/-- The center property: top-left plus the floored half extents for
rectangles (the source uses integer division by 2), the stored center for
circles. -/
def Geom.center : Geom → Vec2
  | .rect tl w h => ⟨tl.x + ((w / 2 : ℚ)).floor, tl.y + ((h / 2 : ℚ)).floor⟩
  | .circle c _ => c

/-- The area property: width times height for rectangles, pi times the
squared radius for circles. -/
def Geom.area : Geom → ℚ
  | .rect _ w h => w * h
  | .circle _ r => ratPi * r ^ 2

/-- forge.core.utils.id.generate_random_id: draws candidate ids until one is
not in the live set _IDS, then adds it to the set and returns it.  The
stream of random draws is the cands parameter; the loop that never finds a
fresh candidate within the stream is modelled as none. -/
def generate_random_id (cands : List Nat) (ids : List Nat) : Option (Nat × List Nat) :=
  match cands.find? (fun c => !ids.contains c) with
  | some i => some (i, i :: ids)
  | none => none

/-- forge.core.utils.id.delete_id: raises IDNotFoundError when the id is not
live, otherwise removes it from the live set. -/
def delete_id (ids : List Nat) (i : Nat) : Except PyErr (List Nat) :=
  if ids.contains i then .ok (ids.erase i) else .error .idNotFoundError

/-- A sequence of generate_random_id calls, one candidate stream per call;
returns the generated ids in call order together with the final live set. -/
def generateIds : List (List Nat) → List Nat → Option (List Nat × List Nat)
  | [], ids => some ([], ids)
  | c :: cs, ids =>
    match generate_random_id c ids with
    | none => none
    | some (i, ids₁) =>
      match generateIds cs ids₁ with
      | none => none
      | some (outs, ids₂) => some (i :: outs, ids₂)

/-- The observable outcome of Shape.__init__ of forge.hearth.elements.base:
the geometry after the parent-relative translation, the cached previous
position (copied from the pre-translation top-left), the generated id, the
live id set after registration, the children list of the parent after the
append, and the exception raised by the area bound check, if any. -/
structure ShapeInitResult where
  shape : Geom
  prevPos : Vec2
  newId : Nat
  ids : List Nat
  parentChildren : List Geom
  raised : Option PyErr
deriving DecidableEq, Repr

/-- Shape.__init__ of forge.hearth.elements.base: generate an id, cache the
previous position, then, when a parent is supplied, translate the top-left
by the top-left of the parent (self.top_left += self.parent.top_left) and
append the shape to the children of the parent; finally check the area
bounds and raise BodyAreaError when violated.  The effects performed before
the raise are kept in the result — nothing is rolled back. -/
def shapeInit (cands ids : List Nat) (g : Geom) (parent : Option (Geom × List Geom)) :
    Option ShapeInitResult :=
  match generate_random_id cands ids with
  | none => none
  | some (newId, ids₁) =>
    let prev := g.topLeft
    let g₁ := match parent with
      | some (pg, _) => g.setTopLeft (g.topLeft + pg.topLeft)
      | none => g
    let pcs := match parent with
      | some (_, cl) => cl ++ [g₁]
      | none => []
    let raised := if MIN_BODY_AREA ≤ g₁.area ∧ g₁.area ≤ MAX_BODY_AREA then none
                  else some PyErr.bodyAreaError
    some ⟨g₁, prev, newId, ids₁, pcs, raised⟩

/-- The name registries of the engine: the live id set _IDS, IMAGE_IDS,
IMAGE_POOL_IDS, EVENT_NAMES and INTERNAL_EVENT_NAMES.  The Python dicts are
modelled as association lists with unique keys. -/
structure RegistrySt where
  ids : List Nat
  imageIds : List (String × Nat)
  imagePoolIds : List (String × Nat)
  eventNames : List (String × Nat)
  internalEventNames : List String
deriving DecidableEq, Repr

/-- Dict key membership. -/
def hasKey (l : List (String × Nat)) (n : String) : Bool := l.any (fun e => e.1 == n)

/-- Dict lookup. -/
def getKey (l : List (String × Nat)) (n : String) : Option Nat :=
  (l.find? (fun e => e.1 == n)).map (fun e => e.2)

/-- Dict pop of a key (keys are unique, so filtering the key out agrees
with removing the single binding). -/
def eraseKey (l : List (String × Nat)) (n : String) : List (String × Nat) :=
  l.filter (fun e => e.1 != n)

/-- Image.__post_init__ of forge.core.engine.image, registry effects:
raises ValueError when the name is already in IMAGE_IDS (before any
mutation), otherwise registers a freshly generated id under the name.  The
fresh id delivered by generate_random_id is passed in by the caller. -/
def imageCreate (s : RegistrySt) (name : String) (newId : Nat) : Except PyErr RegistrySt :=
  if hasKey s.imageIds name then .error .valueError
  else .ok { s with ids := newId :: s.ids, imageIds := s.imageIds ++ [(name, newId)] }

/-- delete_image_from_name of forge.core.engine.image: raises KeyError for
an unknown name, otherwise frees the id and drops the name binding. -/
def delete_image_from_name (s : RegistrySt) (name : String) : Except PyErr RegistrySt :=
  if ¬ hasKey s.imageIds name then .error .keyError
  else match getKey s.imageIds name with
    | none => .error .keyError
    | some i =>
      match delete_id s.ids i with
      | .error e => .error e
      | .ok ids₁ => .ok { s with ids := ids₁, imageIds := eraseKey s.imageIds name }

/-- ImagePool.__post_init__ of forge.core.engine.image, registry effects
(duplicate pool name raises ValueError before any mutation). -/
def imagePoolCreate (s : RegistrySt) (name : String) (newId : Nat) : Except PyErr RegistrySt :=
  if hasKey s.imagePoolIds name then .error .valueError
  else .ok { s with ids := newId :: s.ids, imagePoolIds := s.imagePoolIds ++ [(name, newId)] }

/-- delete_image_pool_from_name of forge.core.engine.image. -/
def delete_image_pool_from_name (s : RegistrySt) (name : String) : Except PyErr RegistrySt :=
  if ¬ hasKey s.imagePoolIds name then .error .keyError
  else match getKey s.imagePoolIds name with
    | none => .error .keyError
    | some i =>
      match delete_id s.ids i with
      | .error e => .error e
      | .ok ids₁ => .ok { s with ids := ids₁, imagePoolIds := eraseKey s.imagePoolIds name }

/-- Event.__post_init__ of forge.core.managers.event, registry effects: an
internal name or an already registered name raises EventNameError before any
mutation; otherwise the event is registered under a fresh id. -/
def eventCreate (s : RegistrySt) (name : String) (newId : Nat) : Except PyErr RegistrySt :=
  if name ∈ s.internalEventNames then .error .eventNameError
  else if hasKey s.eventNames name then .error .eventNameError
  else .ok { s with ids := newId :: s.ids, eventNames := s.eventNames ++ [(name, newId)] }

/-- delete_event_from_name of forge.core.managers.event: internal events
cannot be deleted by name; unknown names raise EventNotRegisteredError;
otherwise the id is freed and the binding dropped. -/
def delete_event_from_name (s : RegistrySt) (name : String) : Except PyErr RegistrySt :=
  if name ∈ s.internalEventNames then .error .internalEventDeletionError
  else if ¬ hasKey s.eventNames name then .error .eventNotRegisteredError
  else match getKey s.eventNames name with
    | none => .error .eventNotRegisteredError
    | some i =>
      match delete_id s.ids i with
      | .error e => .error e
      | .ok ids₁ => .ok { s with ids := ids₁, eventNames := eraseKey s.eventNames name }

/-- An Image as the pool subsystem sees it: its id and the back-reference
to the owning pool (Image.parent), by pool id. -/
structure PImage where
  iid : Nat
  parent : Option Nat
deriving DecidableEq, Repr

/-- An ImagePool as the pool subsystem sees it: its id, its
_belongs_to_renderer flag and its internal _images list (by image id). -/
structure Pool where
  pid : Nat
  belongsToRenderer : Bool
  imgs : List Nat
deriving DecidableEq, Repr

/-- The pool subsystem state: all images with their back-references, all
pools, and the id of the renderer-owned core pool that adoption forwards
to. -/
structure PoolSys where
  rendererPid : Nat
  images : List PImage
  pools : List Pool
deriving DecidableEq, Repr

/-- The parent of the image with the given id within an image list (none
when the image does not exist). -/
def parentIn (ims : List PImage) (i : Nat) : Option Nat :=
  match ims.find? (fun im => im.iid == i) with
  | some im => im.parent
  | none => none

/-- Assignment image.parent = p within an image list. -/
def setIn (ims : List PImage) (i : Nat) (p : Option Nat) : List PImage :=
  ims.map (fun im => if im.iid == i then { im with parent := p } else im)

/-- The _images list of the pool with the given id within a pool list. -/
def imgsIn (ps : List Pool) (p : Nat) : List Nat :=
  match ps.find? (fun q => q.pid == p) with
  | some q => q.imgs
  | none => []

/-- The _belongs_to_renderer flag of the pool with the given id within a
pool list. -/
def belongsIn (ps : List Pool) (p : Nat) : Bool :=
  match ps.find? (fun q => q.pid == p) with
  | some q => q.belongsToRenderer
  | none => false

/-- self._images.append(image) on the pool with the given id. -/
def appendIn (ps : List Pool) (p i : Nat) : List Pool :=
  ps.map (fun q => if q.pid == p then { q with imgs := q.imgs ++ [i] } else q)

/-- self._images.remove(image) on the pool with the given id (first
occurrence, as list.remove does). -/
def removeIn (ps : List Pool) (p i : Nat) : List Pool :=
  ps.map (fun q => if q.pid == p then { q with imgs := q.imgs.erase i } else q)

/-- image.parent for the image with the given id. -/
def parentOf (s : PoolSys) (i : Nat) : Option Nat := parentIn s.images i

/-- Assignment image.parent = p for the image with the given id. -/
def setParent (s : PoolSys) (i : Nat) (p : Option Nat) : PoolSys :=
  { s with images := setIn s.images i p }

/-- The _images list of the pool with the given id. -/
def poolImgs (s : PoolSys) (p : Nat) : List Nat := imgsIn s.pools p

/-- The _belongs_to_renderer flag of the pool with the given id. -/
def belongsOf (s : PoolSys) (p : Nat) : Bool := belongsIn s.pools p

/-- self._images.append(image) on the pool with the given id. -/
def appendImg (s : PoolSys) (p i : Nat) : PoolSys :=
  { s with pools := appendIn s.pools p i }

/-- self._images.remove(image) on the pool with the given id. -/
def removeImg (s : PoolSys) (p i : Nat) : PoolSys :=
  { s with pools := removeIn s.pools p i }

/-- Forwarding of a newly adopted image to the renderer draw list:
ImagePool.__iadd__ runs get_renderer(self.renderer_name).image_pool += image.
Modelled from the spec: get_renderer is absent from the final renderer
module (only a superseded revision defines it); per the spec the lookup
resolves to the renderer-owned core image pool.  That pool was constructed
by CoreRenderer.__init__ with _belongs_to_renderer = True, so its own
__iadd__ checks the back-reference, skips adoption and appends without
forwarding further — which is what is inlined here. -/
def rendererPoolAdd (s : PoolSys) (i : Nat) : PoolSys :=
  if parentOf s i = some s.rendererPid then s else appendImg s s.rendererPid i

/-- Forwarding of a removal to the renderer draw list, the mirror of
rendererPoolAdd (modelled from the spec in the same way): the renderer-owned
pool removes from its list, raising ValueError when the image is absent. -/
def rendererPoolSub (s : PoolSys) (i : Nat) : PoolSys × Option PyErr :=
  if i ∈ poolImgs s s.rendererPid then (removeImg s s.rendererPid i, none)
  else (s, some .valueError)

/-- ImagePool.__iadd__ (single image) of forge.core.engine.image: an image
whose back-reference already points at this pool triggers a warning and no
mutation; otherwise, when the pool is not renderer-owned, the image is
adopted and forwarded to the renderer pool; finally the image is appended to
the internal list. -/
def poolIAdd (s : PoolSys) (p i : Nat) : PoolSys :=
  if parentOf s i = some p then s
  else
    let s₁ := if belongsOf s p = false then rendererPoolAdd (setParent s i (some p)) i else s
    appendImg s₁ p i

/-- ImagePool.__iadd__ (list of images): the same body per element,
continuing past already-member warnings. -/
def poolIAddList (s : PoolSys) (p : Nat) (l : List Nat) : PoolSys :=
  l.foldl (fun t i => poolIAdd t p i) s

/-- ImagePool.__isub__ (single image) of forge.core.engine.image.  The
second component records the exception raised; mutations performed before a
raise are kept in the first component.  A renderer-owned pool just removes
from its list (list.remove raises ValueError when absent).  Otherwise an
image not owned by this pool raises ValueError before any mutation; an owned
image has its back-reference cleared and is removed from the list, and the
removal is forwarded to the renderer pool. -/
def poolISub (s : PoolSys) (p i : Nat) : PoolSys × Option PyErr :=
  if belongsOf s p = true then
    if i ∈ poolImgs s p then (removeImg s p i, none) else (s, some .valueError)
  else if parentOf s i ≠ some p then (s, some .valueError)
  else
    let s₁ := setParent s i none
    if i ∈ poolImgs s₁ p then
      rendererPoolSub (removeImg s₁ p i) i
    else (s₁, some .valueError)

/-- ImagePool.__post_init__ of forge.core.engine.image, membership effects:
the initial images form the internal list and, when the pool is not
renderer-owned, each initial image is adopted (its back-reference is set);
no check against a previous owner is made. -/
def mkImagePool (s : PoolSys) (p : Nat) (belongs : Bool) (init : List Nat) : PoolSys :=
  let s₁ := { s with pools := s.pools ++ [⟨p, belongs, init⟩] }
  if belongs = false then init.foldl (fun t i => setParent t i (some p)) s₁ else s₁

/-- The invariant as the claim states it, for every pool: an image is in
the internal list of a pool exactly when its back-reference is that pool,
and no image is held by two pools at once. -/
def membershipInvariant (s : PoolSys) : Prop :=
  (∀ p ∈ s.pools, ∀ im ∈ s.images, (im.iid ∈ p.imgs ↔ im.parent = some p.pid)) ∧
  (∀ p ∈ s.pools, ∀ q ∈ s.pools, ∀ im ∈ s.images,
    im.iid ∈ p.imgs → im.iid ∈ q.imgs → p = q)

/-- The invariant restricted to pools that are not renderer-owned (the
renderer-owned pool is a mirror of the draw list and holds images whose
back-references point at their free-standing owners): duplicate-free
internal lists and two-way membership/back-reference consistency. -/
def freePoolInvariant (s : PoolSys) : Prop :=
  ∀ q ∈ s.pools.map Pool.pid, belongsOf s q = false →
    (poolImgs s q).Nodup ∧
    ∀ i ∈ s.images.map PImage.iid, (i ∈ poolImgs s q ↔ parentOf s i = some q)

/-- No image is held by two pools that are both not renderer-owned. -/
def noDoubleOwnership (s : PoolSys) : Prop :=
  ∀ q₁ ∈ s.pools.map Pool.pid, ∀ q₂ ∈ s.pools.map Pool.pid,
    belongsOf s q₁ = false → belongsOf s q₂ = false →
    ∀ i ∈ s.images.map PImage.iid,
      i ∈ poolImgs s q₁ → i ∈ poolImgs s q₂ → q₁ = q₂

/-- Wellformedness of a pool system state: the pool registered as the
renderer pool carries the renderer flag, and back-references point at
existing pools. -/
def sysWF (s : PoolSys) : Prop :=
  (s.rendererPid ∈ s.pools.map Pool.pid → belongsOf s s.rendererPid = true) ∧
  (∀ i ∈ s.images.map PImage.iid, ∀ q ∈ (parentOf s i).toList, q ∈ s.pools.map Pool.pid)

instance (s : PoolSys) : Decidable (membershipInvariant s) := by
  unfold membershipInvariant
  exact inferInstance

instance (s : PoolSys) : Decidable (freePoolInvariant s) := by
  unfold freePoolInvariant
  exact inferInstance

instance (s : PoolSys) : Decidable (noDoubleOwnership s) := by
  unfold noDoubleOwnership
  exact inferInstance

instance (s : PoolSys) : Decidable (sysWF s) := by
  unfold sysWF
  exact inferInstance

/-- One pool operation of the image/pool subsystem, as performed through
the public API: pool construction (with a fresh pool id; a pool that is not
renderer-owned is a user pool, distinct from the renderer pool, built over a
duplicate-free list of existing, so-far-unowned images — passing the same
image twice would duplicate the internal list, since __post_init__ adopts
without a membership check), a single-image add (of an existing image that
is unowned or already owned by the target pool), a batch add, and a
single-image remove (which itself rejects bad inputs by raising). -/
inductive PoolStep : PoolSys → PoolSys → Prop
  | mkPool (s : PoolSys) (p : Nat) (belongs : Bool) (init : List Nat)
      (hfresh : p ∉ s.pools.map Pool.pid)
      (hrp : belongs = false → p ≠ s.rendererPid)
      (hinit : belongs = false →
        init.Nodup ∧ ∀ i ∈ init, i ∈ s.images.map PImage.iid ∧ parentOf s i = none) :
      PoolStep s (mkImagePool s p belongs init)
  | iadd (s : PoolSys) (p i : Nat)
      (hp : p ∈ s.pools.map Pool.pid)
      (hi : i ∈ s.images.map PImage.iid)
      (hguard : belongsOf s p = false → (parentOf s i = none ∨ parentOf s i = some p)) :
      PoolStep s (poolIAdd s p i)
  | iaddList (s : PoolSys) (p : Nat) (l : List Nat)
      (hp : p ∈ s.pools.map Pool.pid)
      (hl : ∀ i ∈ l, i ∈ s.images.map PImage.iid ∧
        (belongsOf s p = false → (parentOf s i = none ∨ parentOf s i = some p))) :
      PoolStep s (poolIAddList s p l)
  | isub (s : PoolSys) (p i : Nat)
      (hp : p ∈ s.pools.map Pool.pid)
      (hi : i ∈ s.images.map PImage.iid) :
      PoolStep s (poolISub s p i).1

/-- A finite sequence of pool operations. -/
inductive PoolTrace : PoolSys → PoolSys → Prop
  | refl (s : PoolSys) : PoolTrace s s
  | step (s t u : PoolSys) : PoolStep s t → PoolTrace t u → PoolTrace s u

/-- One draw call recorded against the mock surface, tagged by the list the
drawn entity came from. -/
inductive DrawEv where
  | shape (sid : Nat)
  | gameObject (gid : Nat)
  | image (iid : Nat)
  | element (eid : Nat)
  | component (cid : Nat)
deriving DecidableEq, Repr

/-- CoreRenderer state: the shape list, the free-standing game objects and
the renderer-owned image pool draw list. -/
structure CoreRendererSt where
  shapes : List Node
  gameObjects : List Nat
  imagePool : List Nat

/-- CoreRenderer.render of forge.core.engine.renderer: draws every shape in
insertion order, then every game object, then evaluates
self.image_pool.render(display).  ImagePool defines no render method, so
that attribute lookup raises AttributeError: the draw calls already issued
stay on the surface and no image of the pool is ever drawn. -/
def coreRender (c : CoreRendererSt) : List DrawEv × Option PyErr :=
  ((c.shapes.flatMap (fun t => (renderSeq t).map DrawEv.shape)) ++
    c.gameObjects.map DrawEv.gameObject,
   some .attributeError)

/-- UIRenderer state: the top-level elements and the components. -/
structure UIRendererSt where
  elements : List Node
  components : List Nat

/-- UIRenderer.render of forge.core.engine.renderer: the deduplicated
element walk followed by the component list. -/
def uiRender (u : UIRendererSt) : List DrawEv :=
  (uiRenderElements u.elements []).map DrawEv.element ++ u.components.map DrawEv.component

/-- MasterRenderer.render: the core pass, then the UI pass; an exception in
the core pass aborts the frame before any UI draw call. -/
def masterRender (c : CoreRendererSt) (u : UIRendererSt) : List DrawEv × Option PyErr :=
  match coreRender c with
  | (evs, some e) => (evs, some e)
  | (evs, none) => (evs ++ uiRender u, none)

/-- The name of the core renderer pool.  Modelled from the spec: the
constants module is not among the sources; the claims only need it to be a
fixed string. -/
def CORE_RENDERER : String := "CORE_RENDERER"

/-- Process-wide renderer state: the _MASTER_RENDERER slot (by master id),
the registered image pool names and the live id set. -/
structure RendererWorld where
  master : Option Nat
  imagePoolNames : List String
  ids : List Nat
deriving DecidableEq, Repr

/-- MasterRenderer.__init__ of forge.core.engine.renderer: raises
SyntaxError before touching anything when a master renderer is already
active; otherwise builds the core renderer (whose pool registers the
CORE_RENDERER name, raising ValueError on a collision), the UI renderer and
itself, generating one id each, and installs itself in the process-wide
slot.  The four fresh ids delivered by generate_random_id are passed in by
the caller. -/
def masterRendererInit (w : RendererWorld) (poolId coreId uiId masterId : Nat) :
    RendererWorld × Option PyErr :=
  if w.master.isSome then (w, some .syntaxError)
  else if CORE_RENDERER ∈ w.imagePoolNames then (w, some .valueError)
  else ({ master := some masterId,
          imagePoolNames := w.imagePoolNames ++ [CORE_RENDERER],
          ids := masterId :: uiId :: coreId :: poolId :: w.ids }, none)

/-! ## Helper lemmas -/

theorem Vec2.add_def (a b : Vec2) : a + b = ⟨a.x + b.x, a.y + b.y⟩ := rfl

theorem Vec2.sub_def (a b : Vec2) : a - b = ⟨a.x - b.x, a.y - b.y⟩ := rfl

theorem Vec2.add_zero (a : Vec2) : a + Vec2.zero = a := by
  cases a; simp [Vec2.zero, Vec2.add_def]

theorem Vec2.add_sub_cancel (a b : Vec2) : a + b - a = b := by
  cases a; cases b; simp [Vec2.add_def, Vec2.sub_def]

theorem Vec2.eq_zero_of_add_left (a d : Vec2) (h : a + d = a) : d = Vec2.zero := by
  cases a; cases d
  simp [Vec2.add_def] at h
  simp [Vec2.zero, h]

/-- Structural induction over forests of scene nodes (the nested inductive
needs a hand-rolled principle). -/
theorem forestInduction (P : List Node → Prop)
    (hnil : P [])
    (hcons : ∀ n tl pv cs rest, P cs → P rest → P (Node.mk n tl pv cs :: rest)) :
    ∀ cs, P cs
  | [] => hnil
  | (Node.mk n tl pv cs) :: rest =>
      hcons n tl pv cs rest (forestInduction P hnil hcons cs)
        (forestInduction P hnil hcons rest)

theorem updateShifted_eq_update_shift (d : Vec2) (t : Node) :
    updateShifted d t = Node.update (shiftTopLeft d t) := by
  cases t; rfl

theorem shiftAllForest_zero : ∀ cs, shiftAllForest Vec2.zero cs = cs := by
  refine forestInduction (fun cs => shiftAllForest Vec2.zero cs = cs) rfl ?_
  intro n tl pv cs rest ih1 ih2
  simp [shiftAllForest, shiftAllNode, ih1, ih2, Vec2.add_zero]

theorem updateForest_quiescent :
    ∀ cs, quiescentForest cs = true → updateForest cs = cs := by
  refine forestInduction (fun cs => quiescentForest cs = true → updateForest cs = cs)
    (fun _ => rfl) ?_
  intro n tl pv cs rest ih1 ih2 h
  simp [quiescentForest, quiescentNode] at h
  obtain ⟨⟨htl, hcs⟩, hrest⟩ := h
  simp [updateForest, Node.update, htl, ih1 hcs, ih2 hrest]

theorem shiftUpdateForest_quiescent :
    ∀ cs, quiescentForest cs = true →
      ∀ d : Vec2, shiftUpdateForest d cs = shiftAllForest d cs := by
  refine forestInduction
    (fun cs => quiescentForest cs = true →
      ∀ d : Vec2, shiftUpdateForest d cs = shiftAllForest d cs)
    (fun _ _ => rfl) ?_
  intro n tl pv cs rest ih1 ih2 h d
  simp [quiescentForest, quiescentNode] at h
  obtain ⟨⟨htl, hcs⟩, hrest⟩ := h
  subst htl
  simp only [shiftUpdateForest, shiftAllForest, updateShifted, shiftAllNode]
  rw [ih2 hrest]
  refine congrArg (fun z => z :: shiftAllForest d rest) ?_
  by_cases hd : tl + d = tl
  · have hz : d = Vec2.zero := Vec2.eq_zero_of_add_left tl d hd
    subst hz
    simp only [Vec2.add_zero]
    simp [updateForest_quiescent cs hcs, shiftAllForest_zero cs]
  · rw [if_pos hd, Vec2.add_sub_cancel, ih1 hcs]


/-! ## Claim theorems -/

/-- C1: for a scene node whose top-left has been translated by a vector d
since its cached previous position, while all of its descendants are
untouched (quiescent), one call to update shifts the top-left of every
descendant at every depth by exactly d (together with its refreshed cache)
and refreshes the cached previous position of the node to its new
top-left. -/
theorem update_propagates_displacement (n : Nat) (p d : Vec2) (cs : List Node)
    (h : quiescentForest cs = true) :
    Node.update (Node.mk n (p + d) p cs) =
      Node.mk n (p + d) (p + d) (shiftAllForest d cs) := by
  simp only [Node.update]
  by_cases hd : p + d = p
  · have hz : d = Vec2.zero := Vec2.eq_zero_of_add_left p d hd
    subst hz
    simp only [Vec2.add_zero]
    simp [updateForest_quiescent cs h, shiftAllForest_zero cs]
  · rw [if_pos hd, Vec2.add_sub_cancel, shiftUpdateForest_quiescent cs h d]

/-- Witness for C1, mirroring the worked example of the spec: a rectangle
at (0,0) with a circle child whose top-left is (5,5) (center (10,10),
radius 5); the rectangle is moved to (20,20) and updated once, so the child
shifts by exactly (20,20). -/
theorem update_propagates_displacement_witness :
    quiescentForest [Node.mk 2 ⟨5, 5⟩ ⟨5, 5⟩ []] = true ∧
    Node.update (Node.mk 1 ((⟨0, 0⟩ : Vec2) + ⟨20, 20⟩) ⟨0, 0⟩
        [Node.mk 2 ⟨5, 5⟩ ⟨5, 5⟩ []]) =
      Node.mk 1 ((⟨0, 0⟩ : Vec2) + ⟨20, 20⟩) ((⟨0, 0⟩ : Vec2) + ⟨20, 20⟩)
        (shiftAllForest ⟨20, 20⟩ [Node.mk 2 ⟨5, 5⟩ ⟨5, 5⟩ []]) :=
  ⟨by decide, update_propagates_displacement 1 ⟨0, 0⟩ ⟨20, 20⟩ _ (by decide)⟩

/-- C6 counterexample: constructing a shape whose parent is circle-like
(center (10,10), radius 5) translates the child by the top-left of the
parent, which is (5,5), and not by the center (10,10) as the claim states
for circle-like parents. -/
theorem shape_init_circle_parent_counterexample :
    (shapeInit [99] [] (Geom.rect ⟨0, 0⟩ 2 2)
        (some (Geom.circle ⟨10, 10⟩ 5, []))).map (fun r => r.shape.topLeft) =
      some ((⟨0, 0⟩ : Vec2) + (Geom.circle ⟨10, 10⟩ 5).topLeft) ∧
    some ((⟨0, 0⟩ : Vec2) + (Geom.circle ⟨10, 10⟩ 5).topLeft) ≠
      some ((⟨0, 0⟩ : Vec2) + (Geom.circle ⟨10, 10⟩ 5).center) := by decide

/-- C6 amended: for every parent kind, construction with a parent appends
the new node to the children list of the parent and translates its position
by the top-left of the parent (which for circle-like parents is the center
minus (radius, radius), not the center itself). -/
theorem shape_init_parent_translation (cands ids : List Nat) (g pg : Geom)
    (cl : List Geom) (r : ShapeInitResult)
    (h : shapeInit cands ids g (some (pg, cl)) = some r) :
    r.shape = g.setTopLeft (g.topLeft + pg.topLeft) ∧
    r.parentChildren = cl ++ [g.setTopLeft (g.topLeft + pg.topLeft)] := by
  unfold shapeInit at h
  cases hg : generate_random_id cands ids with
  | none => rw [hg] at h; exact absurd h (by simp)
  | some pr =>
      obtain ⟨i, ids₁⟩ := pr
      rw [hg] at h
      simp only [Option.some.injEq] at h
      subst h
      exact ⟨rfl, rfl⟩

/-- Witness for the amended C6: a small rectangle with a circle-like
parent lands at the parent top-left displacement (5,5) and in the children
list of the parent. -/
theorem shape_init_parent_translation_witness :
    shapeInit [99] [] (Geom.rect ⟨0, 0⟩ 2 2) (some (Geom.circle ⟨10, 10⟩ 5, [])) =
      some ⟨Geom.rect ⟨5, 5⟩ 2 2, ⟨0, 0⟩, 99, [99], [Geom.rect ⟨5, 5⟩ 2 2], none⟩ ∧
    (Geom.rect ⟨5, 5⟩ 2 2 : Geom) =
      (Geom.rect ⟨0, 0⟩ 2 2).setTopLeft ((Geom.rect ⟨0, 0⟩ 2 2).topLeft +
        (Geom.circle ⟨10, 10⟩ 5).topLeft) ∧
    ([Geom.rect ⟨5, 5⟩ 2 2] : List Geom) =
      [] ++ [(Geom.rect ⟨0, 0⟩ 2 2).setTopLeft ((Geom.rect ⟨0, 0⟩ 2 2).topLeft +
        (Geom.circle ⟨10, 10⟩ 5).topLeft)] :=
  ⟨by decide,
    shape_init_parent_translation [99] [] (Geom.rect ⟨0, 0⟩ 2 2)
      (Geom.circle ⟨10, 10⟩ 5) []
      ⟨Geom.rect ⟨5, 5⟩ 2 2, ⟨0, 0⟩, 99, [99], [Geom.rect ⟨5, 5⟩ 2 2], none⟩
      (by decide)⟩

/-- C10: when a parented construction fails the area bound check (which
runs after the parent-relative translation and the append), the failed
construction has already appended the translated node to the children list
of the parent and has already added a freshly generated id to the live id
set; neither effect is rolled back by the raise. -/
theorem shape_init_failure_keeps_side_effects (cands ids : List Nat) (g pg : Geom)
    (cl : List Geom) (r : ShapeInitResult)
    (h : shapeInit cands ids g (some (pg, cl)) = some r)
    (harea : ¬ (MIN_BODY_AREA ≤ (g.setTopLeft (g.topLeft + pg.topLeft)).area ∧
                (g.setTopLeft (g.topLeft + pg.topLeft)).area ≤ MAX_BODY_AREA)) :
    r.raised = some PyErr.bodyAreaError ∧
    r.parentChildren = cl ++ [g.setTopLeft (g.topLeft + pg.topLeft)] ∧
    r.ids = r.newId :: ids ∧ r.newId ∉ ids := by
  unfold shapeInit at h
  cases hg : generate_random_id cands ids with
  | none => rw [hg] at h; exact absurd h (by simp)
  | some pr =>
      obtain ⟨i, ids₁⟩ := pr
      have hfresh : i ∉ ids ∧ ids₁ = i :: ids := by
        unfold generate_random_id at hg
        cases hf : cands.find? (fun c => !ids.contains c) with
        | none => rw [hf] at hg; exact absurd hg (by simp)
        | some j =>
            rw [hf] at hg
            simp only [Option.some.injEq, Prod.mk.injEq] at hg
            obtain ⟨hj, hids⟩ := hg
            subst hj
            have := List.find?_some hf
            simp only [Bool.not_eq_true'] at this
            exact ⟨by simpa using this, hids.symm⟩
      rw [hg] at h
      simp only [Option.some.injEq] at h
      subst h
      refine ⟨?_, rfl, ?_, ?_⟩
      · simp [if_neg harea]
      · simpa using hfresh.2
      · simpa using hfresh.1

/-- Witness for C10: a 100 by 100 rectangle (area 10000, above the world
maximum 4096) constructed with a parent: the raise is recorded, the child
sits in the children list of the parent, and the fresh id 7 is live. -/
theorem shape_init_failure_keeps_side_effects_witness :
    (⟨Geom.rect ⟨3, 4⟩ 100 100, ⟨0, 0⟩, 7, [7], [Geom.rect ⟨3, 4⟩ 100 100],
        some PyErr.bodyAreaError⟩ : ShapeInitResult).raised = some PyErr.bodyAreaError ∧
    (⟨Geom.rect ⟨3, 4⟩ 100 100, ⟨0, 0⟩, 7, [7], [Geom.rect ⟨3, 4⟩ 100 100],
        some PyErr.bodyAreaError⟩ : ShapeInitResult).parentChildren =
      [] ++ [(Geom.rect ⟨0, 0⟩ 100 100).setTopLeft ((Geom.rect ⟨0, 0⟩ 100 100).topLeft +
        (Geom.rect ⟨3, 4⟩ 1 1).topLeft)] ∧
    (⟨Geom.rect ⟨3, 4⟩ 100 100, ⟨0, 0⟩, 7, [7], [Geom.rect ⟨3, 4⟩ 100 100],
        some PyErr.bodyAreaError⟩ : ShapeInitResult).ids =
      (⟨Geom.rect ⟨3, 4⟩ 100 100, ⟨0, 0⟩, 7, [7], [Geom.rect ⟨3, 4⟩ 100 100],
        some PyErr.bodyAreaError⟩ : ShapeInitResult).newId :: [] ∧
    (⟨Geom.rect ⟨3, 4⟩ 100 100, ⟨0, 0⟩, 7, [7], [Geom.rect ⟨3, 4⟩ 100 100],
        some PyErr.bodyAreaError⟩ : ShapeInitResult).newId ∉ ([] : List Nat) :=
  shape_init_failure_keeps_side_effects [7] [] (Geom.rect ⟨0, 0⟩ 100 100)
    (Geom.rect ⟨3, 4⟩ 1 1) []
    ⟨Geom.rect ⟨3, 4⟩ 100 100, ⟨0, 0⟩, 7, [7], [Geom.rect ⟨3, 4⟩ 100 100],
      some PyErr.bodyAreaError⟩
    (by decide) (by decide)

/-- C8: the identity registry contract: any sequence of successful
generate_random_id calls yields pairwise distinct ids, each absent from the
live set existing before the sequence (the live set only grows along the
sequence, so each id is also distinct from every id live at its own call
time); delete_id raises IDNotFoundError exactly when the id is not live;
and a released id can be generated again. -/
theorem id_registry_contract :
    (∀ streams ids outs ids₂, generateIds streams ids = some (outs, ids₂) →
      outs.Nodup ∧ (∀ o ∈ outs, o ∉ ids) ∧ ids₂ = outs.reverse ++ ids) ∧
    (∀ ids i, delete_id ids i = Except.error PyErr.idNotFoundError ↔ i ∉ ids) ∧
    (∀ (ids : List Nat) i, i ∈ ids → ids.Nodup →
      delete_id ids i = Except.ok (ids.erase i) ∧
        generate_random_id [i] (ids.erase i) = some (i, i :: ids.erase i)) := by
  refine ⟨?_, ?_, ?_⟩
  · intro streams
    induction streams with
    | nil =>
        intro ids outs ids₂ h
        simp only [generateIds, Option.some.injEq, Prod.mk.injEq] at h
        obtain ⟨h1, h2⟩ := h
        subst h1; subst h2
        simp
    | cons c cs ih =>
        intro ids outs ids₂ h
        cases hg : generate_random_id c ids with
        | none =>
            simp only [generateIds, hg] at h
            exact absurd h (by simp)
        | some pr =>
            obtain ⟨i, ids₁⟩ := pr
            simp only [generateIds, hg] at h
            have hfresh : i ∉ ids ∧ ids₁ = i :: ids := by
              unfold generate_random_id at hg
              cases hf : c.find? (fun x => !ids.contains x) with
              | none => rw [hf] at hg; exact absurd hg (by simp)
              | some j =>
                  rw [hf] at hg
                  simp only [Option.some.injEq, Prod.mk.injEq] at hg
                  obtain ⟨hj, hids⟩ := hg
                  subst hj
                  have := List.find?_some hf
                  simp only [Bool.not_eq_true'] at this
                  exact ⟨by simpa using this, hids.symm⟩
            cases hr : generateIds cs ids₁ with
            | none => rw [hr] at h; exact absurd h (by simp)
            | some pr₂ =>
                obtain ⟨outs', ids₂'⟩ := pr₂
                rw [hr] at h
                simp only [Option.some.injEq, Prod.mk.injEq] at h
                obtain ⟨h1, h2⟩ := h
                subst h1; subst h2
                obtain ⟨hnd, hout, hacc⟩ := ih ids₁ outs' ids₂' hr
                rw [hfresh.2] at hout hacc
                refine ⟨?_, ?_, ?_⟩
                · refine List.Nodup.cons ?_ hnd
                  intro hmem
                  exact (hout i hmem) (List.mem_cons_self i ids)
                · intro o ho
                  rcases List.mem_cons.mp ho with h | h
                  · subst h; exact hfresh.1
                  · intro hbad
                    exact (hout o h) (List.mem_cons_of_mem i hbad)
                · rw [hacc]
                  simp
  · intro ids i
    unfold delete_id
    by_cases hmem : i ∈ ids
    · simp [hmem]
    · simp [hmem]
  · intro ids i hmem hnd
    constructor
    · unfold delete_id
      simp [hmem]
    · unfold generate_random_id
      have hni : i ∉ ids.erase i := hnd.not_mem_erase
      simp [List.find?, hni]

/-- Witness for C8: two generations from the streams [1] and [1, 2] yield
the distinct fresh ids 1 and 2; deleting 5 from the singleton live set
succeeds and 5 can be generated again; deleting from the empty set raises
IDNotFoundError. -/
theorem id_registry_contract_witness :
    (([1, 2] : List Nat).Nodup ∧ (∀ o ∈ ([1, 2] : List Nat), o ∉ ([] : List Nat)) ∧
      ([2, 1] : List Nat) = [1, 2].reverse ++ []) ∧
    (delete_id [] 5 = Except.error PyErr.idNotFoundError ↔ (5 : Nat) ∉ ([] : List Nat)) ∧
    (delete_id [5] 5 = Except.ok ([5].erase 5) ∧
      generate_random_id [5] ([5].erase 5) = some (5, 5 :: [5].erase 5)) :=
  ⟨id_registry_contract.1 [[1], [1, 2]] [] [1, 2] [2, 1] (by decide),
   id_registry_contract.2.1 [] 5,
   id_registry_contract.2.2 [5] 5 (by decide) (by decide)⟩

/-- C4 (code bug): MasterRenderer.render does draw the shapes in insertion
order and then the game objects, but the core pass then aborts with
AttributeError because ImagePool defines no render method: the
renderer-owned image pool is never drawn and the UI pass never runs, on
every input state. -/
theorem master_render_aborts_in_core_pass (c : CoreRendererSt) (u : UIRendererSt) :
    masterRender c u =
      ((c.shapes.flatMap (fun t => (renderSeq t).map DrawEv.shape)) ++
        c.gameObjects.map DrawEv.gameObject, some PyErr.attributeError) ∧
    (∀ i, DrawEv.image i ∉ (masterRender c u).1) ∧
    (∀ e, DrawEv.element e ∉ (masterRender c u).1) := by
  refine ⟨rfl, ?_, ?_⟩
  · intro i hmem
    simp only [masterRender, coreRender, List.mem_append, List.mem_map,
      List.mem_flatMap] at hmem
    rcases hmem with ⟨t, _, ⟨a, _, hbad⟩⟩ | ⟨a, _, hbad⟩ <;> exact absurd hbad (by simp)
  · intro e hmem
    simp only [masterRender, coreRender, List.mem_append, List.mem_map,
      List.mem_flatMap] at hmem
    rcases hmem with ⟨t, _, ⟨a, _, hbad⟩⟩ | ⟨a, _, hbad⟩ <;> exact absurd hbad (by simp)

theorem uiRenderElements_all_visited :
    ∀ (es : List Node) (vis : List Nat), (∀ e ∈ es, e.nid ∈ vis) →
      uiRenderElements es vis = [] := by
  intro es
  induction es with
  | nil => intro vis _; rfl
  | cons e es ih =>
      intro vis h
      have he : e.nid ∈ vis := h e (List.mem_cons_self e es)
      simp only [uiRenderElements, if_pos he]
      exact ih vis (fun x hx => h x (List.mem_cons_of_mem e hx))

theorem nid_mem_renderSeqForest :
    ∀ (cs : List Node) (c : Node), c ∈ cs → c.nid ∈ renderSeqForest cs := by
  intro cs
  induction cs with
  | nil => intro c hc; cases hc
  | cons a as ih =>
      intro c hc
      rcases List.mem_cons.mp hc with h | h
      · subst h
        cases c with
        | mk n tl pv cs₀ =>
            simp [renderSeqForest, renderSeq, Node.nid]
      · simp only [renderSeqForest, List.mem_append]
        exact Or.inr (ih c h)

theorem childId_mem_renderSeq (p : Node) (n : Nat)
    (h : n ∈ p.children.map Node.nid) : n ∈ renderSeq p := by
  cases p with
  | mk k tl pv cs =>
      obtain ⟨c, hc, hn⟩ := List.mem_map.mp h
      subst hn
      simp only [renderSeq, Node.children] at *
      exact List.mem_cons_of_mem k (nid_mem_renderSeqForest cs c hc)

/-- C5 counterexample: with node 1 listed before its parent node 2 in the
top-level element list (node 1 is also a direct child of node 2), the
element walk draws node 1 twice in one pass: once as a top-level element
and once while rendering the subtree of node 2. -/
theorem ui_render_dedup_counterexample :
    uiRenderElements
      [Node.mk 1 ⟨0, 0⟩ ⟨0, 0⟩ [], Node.mk 2 ⟨0, 0⟩ ⟨0, 0⟩ [Node.mk 1 ⟨0, 0⟩ ⟨0, 0⟩ []]]
      [] = [1, 2, 1] ∧
    (uiRenderElements
      [Node.mk 1 ⟨0, 0⟩ ⟨0, 0⟩ [], Node.mk 2 ⟨0, 0⟩ ⟨0, 0⟩ [Node.mk 1 ⟨0, 0⟩ ⟨0, 0⟩ []]]
      []).count 1 = 2 := by decide

theorem renderSeqForest_append (xs ys : List Node) :
    renderSeqForest (xs ++ ys) = renderSeqForest xs ++ renderSeqForest ys := by
  induction xs with
  | nil => rfl
  | cons c cs ih => simp [renderSeqForest, ih]

theorem nid_mem_renderSeq (e : Node) : e.nid ∈ renderSeq e := by
  cases e with
  | mk n tl pv cs => simp [renderSeq, Node.nid]

theorem mem_renderSeqForest_of_mem (ps : List Node) (p : Node) (n : Nat)
    (hp : p ∈ ps) (hn : n ∈ renderSeq p) : n ∈ renderSeqForest ps := by
  induction ps with
  | nil => cases hp
  | cons q qs ih =>
      simp only [renderSeqForest, List.mem_append]
      rcases List.mem_cons.mp hp with h | h
      · subst h; exact Or.inl hn
      · exact Or.inr (ih h)

theorem rootedConfig_nid_mem (prev els R : List Node)
    (hcfg : RootedConfig prev els R) :
    ∀ e ∈ els, e.nid ∈ renderSeqForest (prev ++ R) := by
  induction hcfg with
  | nil prev => intro e he; cases he
  | root prev e els R h ih =>
      intro f hf
      rcases List.mem_cons.mp hf with h1 | h1
      · subst h1
        exact mem_renderSeqForest_of_mem _ f f.nid (by simp) (nid_mem_renderSeq f)
      · have := ih f h1
        rw [List.append_assoc] at this
        simpa using this
  | child prev e els R p hp hc h ih =>
      intro f hf
      rcases List.mem_cons.mp hf with h1 | h1
      · subst h1
        exact mem_renderSeqForest_of_mem _ p f.nid (List.mem_append_left _ hp)
          (childId_mem_renderSeq p f.nid hc)
      · exact ih f h1

theorem uiRenderElements_rooted (prev els R : List Node)
    (hcfg : RootedConfig prev els R) :
    ∀ vis : List Nat,
      (∀ n ∈ vis, n ∈ renderSeqForest prev) →
      (∀ p ∈ prev, ∀ n ∈ p.children.map Node.nid, n ∈ vis) →
      (renderSeqForest (prev ++ R)).Nodup →
      uiRenderElements els vis = renderSeqForest R := by
  induction hcfg with
  | nil prev => intro vis _ _ _; rfl
  | root prev e els R h ih =>
      intro vis hsub hchild hnd
      have hnotvis : e.nid ∉ vis := by
        intro hmem
        have h1 : e.nid ∈ renderSeqForest prev := hsub _ hmem
        have hnd' : (renderSeqForest prev ++ (renderSeq e ++ renderSeqForest R)).Nodup := by
          simpa [renderSeqForest_append, renderSeqForest] using hnd
        exact (List.nodup_append.mp hnd').2.2 h1
          (List.mem_append_left _ (nid_mem_renderSeq e))
      simp only [uiRenderElements, if_neg hnotvis]
      have heq : uiRenderElements els (vis ++ e.nid :: e.children.map Node.nid)
          = renderSeqForest R := by
        apply ih
        · intro n hn
          rw [renderSeqForest_append]
          rcases List.mem_append.mp hn with h1 | h1
          · exact List.mem_append_left _ (hsub _ h1)
          · refine List.mem_append_right _ ?_
            rcases List.mem_cons.mp h1 with h2 | h2
            · subst h2
              simpa [renderSeqForest] using nid_mem_renderSeq e
            · simpa [renderSeqForest] using childId_mem_renderSeq e n h2
        · intro p hp n hn
          rcases List.mem_append.mp hp with h1 | h1
          · exact List.mem_append_left _ (hchild p h1 n hn)
          · have hpe : p = e := by simpa using h1
            subst hpe
            exact List.mem_append_right _ (List.mem_cons_of_mem _ hn)
        · rw [List.append_assoc]
          simpa using hnd
      rw [heq]
      rfl
  | child prev e els R p hp hc h ih =>
      intro vis hsub hchild hnd
      have hvismem : e.nid ∈ vis := hchild p hp e.nid hc
      simp only [uiRenderElements, if_pos hvismem]
      exact ih vis hsub hchild hnd

/-- C5 amended: for any top-level element list in which every element is
either a root or a direct child (by id) of a root listed before it, with
node ids pairwise distinct across the root trees, a single render pass with
auto-render-children enabled draws exactly the root trees in listing order:
the visited-id dedup suppresses the top-level re-draw of each shared child
because its parent root precedes it, so every listed element is drawn
exactly once. -/
theorem ui_render_dedup (els R : List Node)
    (hcfg : RootedConfig [] els R)
    (hnd : (renderSeqForest R).Nodup) :
    uiRenderElements els [] = renderSeqForest R ∧
    ∀ e ∈ els, (uiRenderElements els []).count e.nid = 1 := by
  have htrace : uiRenderElements els [] = renderSeqForest R := by
    apply uiRenderElements_rooted [] els R hcfg []
    · intro n hn; cases hn
    · intro p hp; cases hp
    · simpa using hnd
  refine ⟨htrace, ?_⟩
  intro e he
  rw [htrace]
  have hmem : e.nid ∈ renderSeqForest R := by
    simpa using rootedConfig_nid_mem [] els R hcfg e he
  exact List.count_eq_one_of_mem hnd hmem

/-- Witness for the amended C5: roots node 1 (with child node 2) and node 3,
with the shared child node 2 listed between them, after its parent: the
pass draws ids 1, 2, 3, each exactly once. -/
theorem ui_render_dedup_witness :
    uiRenderElements
      [Node.mk 1 ⟨0, 0⟩ ⟨0, 0⟩ [Node.mk 2 ⟨0, 0⟩ ⟨0, 0⟩ []],
       Node.mk 2 ⟨0, 0⟩ ⟨0, 0⟩ [],
       Node.mk 3 ⟨0, 0⟩ ⟨0, 0⟩ []] []
      = renderSeqForest
          [Node.mk 1 ⟨0, 0⟩ ⟨0, 0⟩ [Node.mk 2 ⟨0, 0⟩ ⟨0, 0⟩ []],
           Node.mk 3 ⟨0, 0⟩ ⟨0, 0⟩ []] ∧
    ∀ e ∈ [Node.mk 1 ⟨0, 0⟩ ⟨0, 0⟩ [Node.mk 2 ⟨0, 0⟩ ⟨0, 0⟩ []],
           Node.mk 2 ⟨0, 0⟩ ⟨0, 0⟩ [],
           Node.mk 3 ⟨0, 0⟩ ⟨0, 0⟩ []],
      (uiRenderElements
        [Node.mk 1 ⟨0, 0⟩ ⟨0, 0⟩ [Node.mk 2 ⟨0, 0⟩ ⟨0, 0⟩ []],
         Node.mk 2 ⟨0, 0⟩ ⟨0, 0⟩ [],
         Node.mk 3 ⟨0, 0⟩ ⟨0, 0⟩ []] []).count e.nid = 1 :=
  ui_render_dedup
    [Node.mk 1 ⟨0, 0⟩ ⟨0, 0⟩ [Node.mk 2 ⟨0, 0⟩ ⟨0, 0⟩ []],
     Node.mk 2 ⟨0, 0⟩ ⟨0, 0⟩ [],
     Node.mk 3 ⟨0, 0⟩ ⟨0, 0⟩ []]
    [Node.mk 1 ⟨0, 0⟩ ⟨0, 0⟩ [Node.mk 2 ⟨0, 0⟩ ⟨0, 0⟩ []],
     Node.mk 3 ⟨0, 0⟩ ⟨0, 0⟩ []]
    (RootedConfig.root [] (Node.mk 1 ⟨0, 0⟩ ⟨0, 0⟩ [Node.mk 2 ⟨0, 0⟩ ⟨0, 0⟩ []])
      [Node.mk 2 ⟨0, 0⟩ ⟨0, 0⟩ [], Node.mk 3 ⟨0, 0⟩ ⟨0, 0⟩ []]
      [Node.mk 3 ⟨0, 0⟩ ⟨0, 0⟩ []]
      (RootedConfig.child [Node.mk 1 ⟨0, 0⟩ ⟨0, 0⟩ [Node.mk 2 ⟨0, 0⟩ ⟨0, 0⟩ []]]
        (Node.mk 2 ⟨0, 0⟩ ⟨0, 0⟩ [])
        [Node.mk 3 ⟨0, 0⟩ ⟨0, 0⟩ []] [Node.mk 3 ⟨0, 0⟩ ⟨0, 0⟩ []]
        (Node.mk 1 ⟨0, 0⟩ ⟨0, 0⟩ [Node.mk 2 ⟨0, 0⟩ ⟨0, 0⟩ []])
        (List.mem_singleton.mpr rfl) (by decide)
        (RootedConfig.root [Node.mk 1 ⟨0, 0⟩ ⟨0, 0⟩ [Node.mk 2 ⟨0, 0⟩ ⟨0, 0⟩ []]]
          (Node.mk 3 ⟨0, 0⟩ ⟨0, 0⟩ []) [] []
          (RootedConfig.nil
            [Node.mk 1 ⟨0, 0⟩ ⟨0, 0⟩ [Node.mk 2 ⟨0, 0⟩ ⟨0, 0⟩ []],
             Node.mk 3 ⟨0, 0⟩ ⟨0, 0⟩ []]))))
    (by decide)

theorem hasKey_eraseKey (l : List (String × Nat)) (n : String) :
    hasKey (eraseKey l n) n = false := by
  simp only [hasKey, eraseKey, List.any_eq_false, List.mem_filter]
  intro e hmem
  simpa using hmem.2

/-- C7: for each named entity kind (Image, ImagePool, Event), creating a
second entity under a currently registered name fails with the duplicate
name error of that kind before any mutation (ValueError for images and
pools, EventNameError for events — the error kind the spec names
DuplicateNameError), and after the first entity is deleted by name the same
name registers again successfully. -/
theorem name_registry_contract (s : RegistrySt) (name : String) (i j : Nat) :
    (hasKey s.imageIds name = true → imageCreate s name i = .error .valueError) ∧
    (∀ s₁, delete_image_from_name s name = .ok s₁ →
      imageCreate s₁ name j =
        .ok { s₁ with ids := j :: s₁.ids, imageIds := s₁.imageIds ++ [(name, j)] }) ∧
    (hasKey s.imagePoolIds name = true → imagePoolCreate s name i = .error .valueError) ∧
    (∀ s₁, delete_image_pool_from_name s name = .ok s₁ →
      imagePoolCreate s₁ name j =
        .ok { s₁ with ids := j :: s₁.ids, imagePoolIds := s₁.imagePoolIds ++ [(name, j)] }) ∧
    (hasKey s.eventNames name = true → eventCreate s name i = .error .eventNameError) ∧
    (∀ s₁, delete_event_from_name s name = .ok s₁ →
      eventCreate s₁ name j =
        .ok { s₁ with ids := j :: s₁.ids, eventNames := s₁.eventNames ++ [(name, j)] }) := by
  refine ⟨?_, ?_, ?_, ?_, ?_, ?_⟩
  · intro h; simp [imageCreate, h]
  · intro s₁ h
    unfold delete_image_from_name at h
    by_cases hk : hasKey s.imageIds name
    · rw [if_neg (by simpa using hk)] at h
      cases hgk : getKey s.imageIds name with
      | none =>
          simp only [hgk] at h
          exact absurd h (by simp)
      | some i₀ =>
          simp only [hgk] at h
          cases hd : delete_id s.ids i₀ with
          | error e => rw [hd] at h; exact absurd h (by simp)
          | ok ids₁ =>
              rw [hd] at h
              simp only [Except.ok.injEq] at h
              subst h
              simp [imageCreate, hasKey_eraseKey]
    · rw [if_pos (by simpa using hk)] at h
      exact absurd h (by simp)
  · intro h; simp [imagePoolCreate, h]
  · intro s₁ h
    unfold delete_image_pool_from_name at h
    by_cases hk : hasKey s.imagePoolIds name
    · rw [if_neg (by simpa using hk)] at h
      cases hgk : getKey s.imagePoolIds name with
      | none =>
          simp only [hgk] at h
          exact absurd h (by simp)
      | some i₀ =>
          simp only [hgk] at h
          cases hd : delete_id s.ids i₀ with
          | error e => rw [hd] at h; exact absurd h (by simp)
          | ok ids₁ =>
              rw [hd] at h
              simp only [Except.ok.injEq] at h
              subst h
              simp [imagePoolCreate, hasKey_eraseKey]
    · rw [if_pos (by simpa using hk)] at h
      exact absurd h (by simp)
  · intro h
    by_cases hint : name ∈ s.internalEventNames
    · simp [eventCreate, hint]
    · simp [eventCreate, hint, h]
  · intro s₁ h
    unfold delete_event_from_name at h
    by_cases hint : name ∈ s.internalEventNames
    · rw [if_pos hint] at h; exact absurd h (by simp)
    · rw [if_neg hint] at h
      by_cases hk : hasKey s.eventNames name
      · rw [if_neg (by simpa using hk)] at h
        cases hgk : getKey s.eventNames name with
        | none =>
          simp only [hgk] at h
          exact absurd h (by simp)
        | some i₀ =>
            simp only [hgk] at h
            cases hd : delete_id s.ids i₀ with
            | error e => rw [hd] at h; exact absurd h (by simp)
            | ok ids₁ =>
                rw [hd] at h
                simp only [Except.ok.injEq] at h
                subst h
                simp [eventCreate, hasKey_eraseKey, hint]
      · rw [if_pos (by simpa using hk)] at h
        exact absurd h (by simp)

/-- Witness for C7 on a registry where the name n is registered for all
three kinds: duplicate creation fails for each kind, and after deletion by
name each kind accepts the name again. -/
theorem name_registry_contract_witness :
    (imageCreate ⟨[10, 11, 12], [("n", 10)], [("n", 11)], [("n", 12)], []⟩ "n" 5 =
      .error .valueError) ∧
    (imageCreate ⟨[11, 12], [], [("n", 11)], [("n", 12)], []⟩ "n" 7 =
      .ok ⟨7 :: [11, 12], [] ++ [("n", 7)], [("n", 11)], [("n", 12)], []⟩) ∧
    (imagePoolCreate ⟨[10, 11, 12], [("n", 10)], [("n", 11)], [("n", 12)], []⟩ "n" 5 =
      .error .valueError) ∧
    (imagePoolCreate ⟨[10, 12], [("n", 10)], [], [("n", 12)], []⟩ "n" 7 =
      .ok ⟨7 :: [10, 12], [("n", 10)], [] ++ [("n", 7)], [("n", 12)], []⟩) ∧
    (eventCreate ⟨[10, 11, 12], [("n", 10)], [("n", 11)], [("n", 12)], []⟩ "n" 5 =
      .error .eventNameError) ∧
    (eventCreate ⟨[10, 11], [("n", 10)], [("n", 11)], [], []⟩ "n" 7 =
      .ok ⟨7 :: [10, 11], [("n", 10)], [("n", 11)], [] ++ [("n", 7)], []⟩) :=
  have t1 := name_registry_contract ⟨[10, 11, 12], [("n", 10)], [("n", 11)], [("n", 12)], []⟩ "n" 5 7
  ⟨t1.1 (by decide),
   t1.2.1 ⟨[11, 12], [], [("n", 11)], [("n", 12)], []⟩ (by decide),
   t1.2.2.1 (by decide),
   t1.2.2.2.1 ⟨[10, 12], [("n", 10)], [], [("n", 12)], []⟩ (by decide),
   t1.2.2.2.2.1 (by decide),
   t1.2.2.2.2.2 ⟨[10, 11], [("n", 10)], [("n", 11)], [], []⟩ (by decide)⟩

/-- C9: constructing a MasterRenderer while one is active raises
(SyntaxError in the source) and leaves the process-wide state untouched;
with no active master renderer (and the core pool name still free, as in
any normal process lifetime) construction succeeds and installs the new
instance as the single active master renderer. -/
theorem master_renderer_singleton (w : RendererWorld) (poolId coreId uiId masterId m : Nat) :
    (w.master = some m →
      masterRendererInit w poolId coreId uiId masterId = (w, some PyErr.syntaxError)) ∧
    (w.master = none → CORE_RENDERER ∉ w.imagePoolNames →
      masterRendererInit w poolId coreId uiId masterId =
        ({ master := some masterId,
           imagePoolNames := w.imagePoolNames ++ [CORE_RENDERER],
           ids := masterId :: uiId :: coreId :: poolId :: w.ids }, none)) := by
  constructor
  · intro h
    simp [masterRendererInit, h]
  · intro h hp
    simp [masterRendererInit, h, hp]

/-- Witness for C9: with master id 3 active, a second construction fails
and the state is unchanged; from the empty state, construction succeeds and
installs master id 42. -/
theorem master_renderer_singleton_witness :
    (masterRendererInit ⟨some 3, [CORE_RENDERER], [3]⟩ 20 21 22 23 =
      (⟨some 3, [CORE_RENDERER], [3]⟩, some PyErr.syntaxError)) ∧
    (masterRendererInit ⟨none, [], []⟩ 20 21 22 42 =
      (⟨some 42, [] ++ [CORE_RENDERER], [42, 22, 21, 20]⟩, none)) :=
  ⟨(master_renderer_singleton ⟨some 3, [CORE_RENDERER], [3]⟩ 20 21 22 23 3).1 rfl,
   (master_renderer_singleton ⟨none, [], []⟩ 20 21 22 42 0).2 rfl (by decide)⟩

theorem parentIn_setIn_self (i : Nat) (pp : Option Nat) :
    ∀ ims : List PImage, i ∈ ims.map PImage.iid → parentIn (setIn ims i pp) i = pp := by
  intro ims
  induction ims with
  | nil => intro h; simp at h
  | cons a as ih =>
      intro hmem
      by_cases h : a.iid = i
      · have hb : (a.iid == i) = true := by simp [h]
        simp [parentIn, setIn, List.find?, hb]
      · have hb : (a.iid == i) = false := by simp [h]
        have hmem' : i ∈ as.map PImage.iid := by
          simp only [List.map_cons, List.mem_cons] at hmem
          exact hmem.resolve_left (fun hx => h hx.symm)
        simpa [parentIn, setIn, List.find?, hb, h] using ih hmem'

theorem parentIn_setIn_ne (i : Nat) (pp : Option Nat) (j : Nat) (hne : j ≠ i) :
    ∀ ims : List PImage, parentIn (setIn ims i pp) j = parentIn ims j := by
  intro ims
  induction ims with
  | nil => rfl
  | cons a as ih =>
      by_cases h : a.iid = i
      · have hb : (a.iid == i) = true := by simp [h]
        have hb2 : (a.iid == j) = false := by
          simp only [beq_eq_false_iff_ne]
          rw [h]; exact fun hx => hne hx.symm
        simpa [parentIn, setIn, List.find?, hb, hb2] using ih
      · have hb : (a.iid == i) = false := by simp [h]
        by_cases h2 : a.iid = j
        · have hb2 : (a.iid == j) = true := by simp [h2]
          simp [parentIn, setIn, List.find?, hb, hb2, h]
        · have hb2 : (a.iid == j) = false := by simp [h2]
          simpa [parentIn, setIn, List.find?, hb, hb2, h] using ih

theorem iids_setIn (i : Nat) (pp : Option Nat) (ims : List PImage) :
    (setIn ims i pp).map PImage.iid = ims.map PImage.iid := by
  unfold setIn
  rw [List.map_map]
  apply List.map_congr_left
  intro a _
  by_cases h : a.iid = i
  · simp [h]
  · simp [h]

theorem imgsIn_appendIn_self (p i : Nat) :
    ∀ ps : List Pool, p ∈ ps.map Pool.pid →
      imgsIn (appendIn ps p i) p = imgsIn ps p ++ [i] := by
  intro ps
  induction ps with
  | nil => intro h; simp at h
  | cons a as ih =>
      intro hmem
      by_cases h : a.pid = p
      · have hb : (a.pid == p) = true := by simp [h]
        simp [imgsIn, appendIn, List.find?, hb]
      · have hb : (a.pid == p) = false := by simp [h]
        have hmem' : p ∈ as.map Pool.pid := by
          simp only [List.map_cons, List.mem_cons] at hmem
          exact hmem.resolve_left (fun hx => h hx.symm)
        simpa [imgsIn, appendIn, List.find?, hb, h] using ih hmem'

theorem imgsIn_appendIn_ne (p i q : Nat) (hne : q ≠ p) :
    ∀ ps : List Pool, imgsIn (appendIn ps p i) q = imgsIn ps q := by
  intro ps
  induction ps with
  | nil => rfl
  | cons a as ih =>
      by_cases h : a.pid = p
      · have hb : (a.pid == p) = true := by simp [h]
        have hb2 : (a.pid == q) = false := by
          simp only [beq_eq_false_iff_ne]
          rw [h]; exact fun hx => hne hx.symm
        simpa [imgsIn, appendIn, List.find?, hb, hb2] using ih
      · have hb : (a.pid == p) = false := by simp [h]
        by_cases h2 : a.pid = q
        · have hb2 : (a.pid == q) = true := by simp [h2]
          simp [imgsIn, appendIn, List.find?, hb, hb2, h]
        · have hb2 : (a.pid == q) = false := by simp [h2]
          simpa [imgsIn, appendIn, List.find?, hb, hb2, h] using ih

theorem imgsIn_removeIn_self (p i : Nat) :
    ∀ ps : List Pool, imgsIn (removeIn ps p i) p = (imgsIn ps p).erase i := by
  intro ps
  induction ps with
  | nil => rfl
  | cons a as ih =>
      by_cases h : a.pid = p
      · have hb : (a.pid == p) = true := by simp [h]
        simp [imgsIn, removeIn, List.find?, hb]
      · have hb : (a.pid == p) = false := by simp [h]
        simpa [imgsIn, removeIn, List.find?, hb, h] using ih

theorem imgsIn_removeIn_ne (p i q : Nat) (hne : q ≠ p) :
    ∀ ps : List Pool, imgsIn (removeIn ps p i) q = imgsIn ps q := by
  intro ps
  induction ps with
  | nil => rfl
  | cons a as ih =>
      by_cases h : a.pid = p
      · have hb : (a.pid == p) = true := by simp [h]
        have hb2 : (a.pid == q) = false := by
          simp only [beq_eq_false_iff_ne]
          rw [h]; exact fun hx => hne hx.symm
        simpa [imgsIn, removeIn, List.find?, hb, hb2] using ih
      · have hb : (a.pid == p) = false := by simp [h]
        by_cases h2 : a.pid = q
        · have hb2 : (a.pid == q) = true := by simp [h2]
          simp [imgsIn, removeIn, List.find?, hb, hb2, h]
        · have hb2 : (a.pid == q) = false := by simp [h2]
          simpa [imgsIn, removeIn, List.find?, hb, hb2, h] using ih

theorem belongsIn_appendIn (p i q : Nat) :
    ∀ ps : List Pool, belongsIn (appendIn ps p i) q = belongsIn ps q := by
  intro ps
  induction ps with
  | nil => rfl
  | cons a as ih =>
      by_cases h : a.pid = p
      · have hb : (a.pid == p) = true := by simp [h]
        by_cases h2 : a.pid = q
        · have hb2 : (a.pid == q) = true := by simp [h2]
          simp [belongsIn, appendIn, List.find?, hb, hb2]
        · have hb2 : (a.pid == q) = false := by simp [h2]
          simpa [belongsIn, appendIn, List.find?, hb, hb2] using ih
      · have hb : (a.pid == p) = false := by simp [h]
        by_cases h2 : a.pid = q
        · have hb2 : (a.pid == q) = true := by simp [h2]
          simp [belongsIn, appendIn, List.find?, hb, hb2]
        · have hb2 : (a.pid == q) = false := by simp [h2]
          simpa [belongsIn, appendIn, List.find?, hb, hb2] using ih

theorem belongsIn_removeIn (p i q : Nat) :
    ∀ ps : List Pool, belongsIn (removeIn ps p i) q = belongsIn ps q := by
  intro ps
  induction ps with
  | nil => rfl
  | cons a as ih =>
      by_cases h : a.pid = p
      · have hb : (a.pid == p) = true := by simp [h]
        by_cases h2 : a.pid = q
        · have hb2 : (a.pid == q) = true := by simp [h2]
          simp [belongsIn, removeIn, List.find?, hb, hb2]
        · have hb2 : (a.pid == q) = false := by simp [h2]
          simpa [belongsIn, removeIn, List.find?, hb, hb2] using ih
      · have hb : (a.pid == p) = false := by simp [h]
        by_cases h2 : a.pid = q
        · have hb2 : (a.pid == q) = true := by simp [h2]
          simp [belongsIn, removeIn, List.find?, hb, hb2]
        · have hb2 : (a.pid == q) = false := by simp [h2]
          simpa [belongsIn, removeIn, List.find?, hb, hb2] using ih

theorem pids_appendIn (p i : Nat) (ps : List Pool) :
    (appendIn ps p i).map Pool.pid = ps.map Pool.pid := by
  unfold appendIn
  rw [List.map_map]
  apply List.map_congr_left
  intro a _
  by_cases h : a.pid = p
  · simp [h]
  · simp [h]

theorem pids_removeIn (p i : Nat) (ps : List Pool) :
    (removeIn ps p i).map Pool.pid = ps.map Pool.pid := by
  unfold removeIn
  rw [List.map_map]
  apply List.map_congr_left
  intro a _
  by_cases h : a.pid = p
  · simp [h]
  · simp [h]

theorem imgsIn_concat_mem (q : Nat) (n : Pool) :
    ∀ ps : List Pool, q ∈ ps.map Pool.pid → imgsIn (ps ++ [n]) q = imgsIn ps q := by
  intro ps
  induction ps with
  | nil => intro h; simp at h
  | cons a as ih =>
      intro hmem
      by_cases h : a.pid = q
      · have hb : (a.pid == q) = true := by simp [h]
        simp [imgsIn, List.find?, hb]
      · have hb : (a.pid == q) = false := by simp [h]
        have hmem' : q ∈ as.map Pool.pid := by
          simp only [List.map_cons, List.mem_cons] at hmem
          exact hmem.resolve_left (fun hx => h hx.symm)
        simpa [imgsIn, List.find?, hb] using ih hmem'

theorem belongsIn_concat_mem (q : Nat) (n : Pool) :
    ∀ ps : List Pool, q ∈ ps.map Pool.pid → belongsIn (ps ++ [n]) q = belongsIn ps q := by
  intro ps
  induction ps with
  | nil => intro h; simp at h
  | cons a as ih =>
      intro hmem
      by_cases h : a.pid = q
      · have hb : (a.pid == q) = true := by simp [h]
        simp [belongsIn, List.find?, hb]
      · have hb : (a.pid == q) = false := by simp [h]
        have hmem' : q ∈ as.map Pool.pid := by
          simp only [List.map_cons, List.mem_cons] at hmem
          exact hmem.resolve_left (fun hx => h hx.symm)
        simpa [belongsIn, List.find?, hb] using ih hmem'

theorem imgsIn_concat_fresh (n : Pool) :
    ∀ ps : List Pool, n.pid ∉ ps.map Pool.pid → imgsIn (ps ++ [n]) n.pid = n.imgs := by
  intro ps
  induction ps with
  | nil => intro _; simp [imgsIn, List.find?]
  | cons a as ih =>
      intro hmem
      simp only [List.map_cons, List.mem_cons] at hmem
      push_neg at hmem
      have hb : (a.pid == n.pid) = false := by
        simp only [beq_eq_false_iff_ne]
        exact fun hx => hmem.1 hx.symm
      simpa [imgsIn, List.find?, hb] using ih hmem.2

theorem belongsIn_concat_fresh (n : Pool) :
    ∀ ps : List Pool, n.pid ∉ ps.map Pool.pid →
      belongsIn (ps ++ [n]) n.pid = n.belongsToRenderer := by
  intro ps
  induction ps with
  | nil => intro _; simp [belongsIn, List.find?]
  | cons a as ih =>
      intro hmem
      simp only [List.map_cons, List.mem_cons] at hmem
      push_neg at hmem
      have hb : (a.pid == n.pid) = false := by
        simp only [beq_eq_false_iff_ne]
        exact fun hx => hmem.1 hx.symm
      simpa [belongsIn, List.find?, hb] using ih hmem.2

theorem parentIn_not_mem (i : Nat) :
    ∀ ims : List PImage, i ∉ ims.map PImage.iid → parentIn ims i = none := by
  intro ims
  induction ims with
  | nil => intro _; rfl
  | cons a as ih =>
      intro hmem
      simp only [List.map_cons, List.mem_cons] at hmem
      push_neg at hmem
      have hb : (a.iid == i) = false := by
        simp only [beq_eq_false_iff_ne]
        exact fun hx => hmem.1 hx.symm
      simpa [parentIn, List.find?, hb] using ih hmem.2

theorem parentOf_setParent_self (s : PoolSys) (i : Nat) (pp : Option Nat)
    (hi : i ∈ s.images.map PImage.iid) : parentOf (setParent s i pp) i = pp :=
  parentIn_setIn_self i pp s.images hi

theorem parentOf_setParent_ne (s : PoolSys) (i : Nat) (pp : Option Nat) (j : Nat)
    (hne : j ≠ i) : parentOf (setParent s i pp) j = parentOf s j :=
  parentIn_setIn_ne i pp j hne s.images

theorem parentOf_some_mem (s : PoolSys) (i q : Nat) (h : parentOf s i = some q) :
    i ∈ s.images.map PImage.iid := by
  by_contra hmem
  rw [parentOf, parentIn_not_mem i s.images hmem] at h
  exact absurd h (by simp)

theorem sysWF_parent (s : PoolSys) (hWF : sysWF s) (i q : Nat)
    (hi : i ∈ s.images.map PImage.iid) (hq : parentOf s i = some q) :
    q ∈ s.pools.map Pool.pid :=
  hWF.2 i hi q (by simp [hq])

theorem foldSet_pools (p : Nat) :
    ∀ (l : List Nat) (t : PoolSys),
      (l.foldl (fun u j => setParent u j (some p)) t).pools = t.pools := by
  intro l
  induction l with
  | nil => intro t; rfl
  | cons a rest ih => intro t; simpa using ih (setParent t a (some p))

theorem foldSet_rendererPid (p : Nat) :
    ∀ (l : List Nat) (t : PoolSys),
      (l.foldl (fun u j => setParent u j (some p)) t).rendererPid = t.rendererPid := by
  intro l
  induction l with
  | nil => intro t; rfl
  | cons a rest ih => intro t; simpa using ih (setParent t a (some p))

theorem foldSet_iids (p : Nat) :
    ∀ (l : List Nat) (t : PoolSys),
      (l.foldl (fun u j => setParent u j (some p)) t).images.map PImage.iid =
        t.images.map PImage.iid := by
  intro l
  induction l with
  | nil => intro t; rfl
  | cons a rest ih =>
      intro t
      have := ih (setParent t a (some p))
      simpa [setParent, iids_setIn] using this

theorem foldSet_parentOf_not_mem (p : Nat) (j : Nat) :
    ∀ (l : List Nat) (t : PoolSys), j ∉ l →
      parentOf (l.foldl (fun u j => setParent u j (some p)) t) j = parentOf t j := by
  intro l
  induction l with
  | nil => intro t _; rfl
  | cons a rest ih =>
      intro t hj
      simp only [List.mem_cons] at hj
      push_neg at hj
      have := ih (setParent t a (some p)) hj.2
      simpa [this] using parentOf_setParent_ne t a (some p) j hj.1

theorem foldSet_parentOf_mem (p : Nat) (j : Nat) :
    ∀ (l : List Nat) (t : PoolSys), j ∈ l → j ∈ t.images.map PImage.iid →
      parentOf (l.foldl (fun u j => setParent u j (some p)) t) j = some p := by
  intro l
  induction l with
  | nil => intro t hj _; cases hj
  | cons a rest ih =>
      intro t hj hmem
      by_cases hr : j ∈ rest
      · have hmem' : j ∈ (setParent t a (some p)).images.map PImage.iid := by
          simpa [setParent, iids_setIn] using hmem
        simpa using ih (setParent t a (some p)) hr hmem'
      · have hja : j = a := by
          rcases List.mem_cons.mp hj with h | h
          · exact h
          · exact absurd h hr
        subst hja
        have h1 : parentOf (setParent t j (some p)) j = some p :=
          parentOf_setParent_self t j (some p) hmem
        have := foldSet_parentOf_not_mem p j rest (setParent t j (some p)) hr
        simpa [this] using h1

theorem imgsIn_not_mem (q : Nat) :
    ∀ ps : List Pool, q ∉ ps.map Pool.pid → imgsIn ps q = [] := by
  intro ps
  induction ps with
  | nil => intro _; rfl
  | cons a as ih =>
      intro hmem
      simp only [List.map_cons, List.mem_cons] at hmem
      push_neg at hmem
      have hb : (a.pid == q) = false := by
        simp only [beq_eq_false_iff_ne]
        exact fun hx => hmem.1 hx.symm
      simpa [imgsIn, List.find?, hb] using ih hmem.2

theorem poolImgs_mem_pids (s : PoolSys) (q i : Nat) (h : i ∈ poolImgs s q) :
    q ∈ s.pools.map Pool.pid := by
  by_contra hmem
  rw [poolImgs, imgsIn_not_mem q s.pools hmem] at h
  cases h

theorem appendImg_belongs (s : PoolSys) (p i q : Nat) :
    belongsOf (appendImg s p i) q = belongsOf s q := belongsIn_appendIn p i q s.pools

theorem appendImg_pids (s : PoolSys) (p i : Nat) :
    (appendImg s p i).pools.map Pool.pid = s.pools.map Pool.pid := pids_appendIn p i s.pools

theorem removeImg_belongs (s : PoolSys) (p i q : Nat) :
    belongsOf (removeImg s p i) q = belongsOf s q := belongsIn_removeIn p i q s.pools

theorem removeImg_pids (s : PoolSys) (p i : Nat) :
    (removeImg s p i).pools.map Pool.pid = s.pools.map Pool.pid := pids_removeIn p i s.pools

theorem nonfree_append_preserves (s : PoolSys) (p i : Nat)
    (hWF : sysWF s) (hInv : freePoolInvariant s) (hnf : belongsOf s p = true) :
    sysWF (appendImg s p i) ∧ freePoolInvariant (appendImg s p i) := by
  constructor
  · constructor
    · intro hr
      rw [appendImg_belongs]
      exact hWF.1 (by rw [appendImg_pids] at hr; exact hr)
    · intro j hj q hq
      rw [appendImg_pids]
      exact hWF.2 j hj q hq
  · intro q hq hbq
    rw [appendImg_pids] at hq
    rw [appendImg_belongs] at hbq
    have hqp : q ≠ p := by
      intro he
      rw [he, hnf] at hbq
      cases hbq
    have himgs : poolImgs (appendImg s p i) q = poolImgs s q :=
      imgsIn_appendIn_ne p i q hqp s.pools
    obtain ⟨hnd, hiff⟩ := hInv q hq hbq
    refine ⟨by rw [himgs]; exact hnd, ?_⟩
    intro j hj
    rw [himgs]
    exact hiff j hj

theorem nonfree_remove_preserves (s : PoolSys) (p i : Nat)
    (hWF : sysWF s) (hInv : freePoolInvariant s) (hnf : belongsOf s p = true) :
    sysWF (removeImg s p i) ∧ freePoolInvariant (removeImg s p i) := by
  constructor
  · constructor
    · intro hr
      rw [removeImg_belongs]
      exact hWF.1 (by rw [removeImg_pids] at hr; exact hr)
    · intro j hj q hq
      rw [removeImg_pids]
      exact hWF.2 j hj q hq
  · intro q hq hbq
    rw [removeImg_pids] at hq
    rw [removeImg_belongs] at hbq
    have hqp : q ≠ p := by
      intro he
      rw [he, hnf] at hbq
      cases hbq
    have himgs : poolImgs (removeImg s p i) q = poolImgs s q :=
      imgsIn_removeIn_ne p i q hqp s.pools
    obtain ⟨hnd, hiff⟩ := hInv q hq hbq
    refine ⟨by rw [himgs]; exact hnd, ?_⟩
    intro j hj
    rw [himgs]
    exact hiff j hj

theorem iadd_preserves (s : PoolSys) (p i : Nat)
    (hWF : sysWF s) (hInv : freePoolInvariant s)
    (hp : p ∈ s.pools.map Pool.pid)
    (hi : i ∈ s.images.map PImage.iid)
    (hguard : belongsOf s p = false → (parentOf s i = none ∨ parentOf s i = some p)) :
    sysWF (poolIAdd s p i) ∧ freePoolInvariant (poolIAdd s p i) := by
  by_cases hpar : parentOf s i = some p
  · have hs : poolIAdd s p i = s := by
      unfold poolIAdd
      rw [if_pos hpar]
    rw [hs]
    exact ⟨hWF, hInv⟩
  by_cases hbel : belongsOf s p = false
  case neg =>
    have hbel' : belongsOf s p = true := by
      cases hb : belongsOf s p
      · exact absurd hb hbel
      · rfl
    have hs : poolIAdd s p i = appendImg s p i := by
      unfold poolIAdd
      rw [if_neg hpar]
      simp [hbel']
    rw [hs]
    exact nonfree_append_preserves s p i hWF hInv hbel'
  case pos =>
    have hpar0 : parentOf s i = none := (hguard hbel).resolve_right hpar
    have hrp : p ≠ s.rendererPid := by
      intro he
      have hb : belongsOf s s.rendererPid = true := hWF.1 (he ▸ hp)
      rw [← he, hbel] at hb
      cases hb
    set s₁ := setParent s i (some p) with hs₁def
    have hs₁i : parentOf s₁ i = some p := parentOf_setParent_self s i (some p) hi
    have hs : poolIAdd s p i = appendImg (appendImg s₁ s.rendererPid i) p i := by
      unfold poolIAdd rendererPoolAdd
      rw [if_neg hpar]
      simp only [hbel, if_pos, if_true, eq_self_iff_true]
      have hcond : ¬ (parentOf s₁ i = some s₁.rendererPid) := by
        rw [hs₁i]
        intro he
        exact hrp (by injection he)
      rw [if_neg hcond]
      rfl
    rw [hs]
    -- observables of the final state
    have hpids : (appendImg (appendImg s₁ s.rendererPid i) p i).pools.map Pool.pid =
        s.pools.map Pool.pid := by
      rw [appendImg_pids, appendImg_pids]
      rfl
    have hbelq : ∀ q, belongsOf (appendImg (appendImg s₁ s.rendererPid i) p i) q =
        belongsOf s q := by
      intro q
      rw [appendImg_belongs, appendImg_belongs]
      rfl
    have hiids : (appendImg (appendImg s₁ s.rendererPid i) p i).images.map PImage.iid =
        s.images.map PImage.iid := iids_setIn i (some p) s.images
    have hparent_ne : ∀ j, j ≠ i →
        parentOf (appendImg (appendImg s₁ s.rendererPid i) p i) j = parentOf s j :=
      fun j hj => parentOf_setParent_ne s i (some p) j hj
    have hparent_i : parentOf (appendImg (appendImg s₁ s.rendererPid i) p i) i = some p := hs₁i
    have himgs_p : poolImgs (appendImg (appendImg s₁ s.rendererPid i) p i) p =
        poolImgs s p ++ [i] := by
      have h1 : poolImgs (appendImg (appendImg s₁ s.rendererPid i) p i) p =
          poolImgs (appendImg s₁ s.rendererPid i) p ++ [i] := by
        apply imgsIn_appendIn_self
        rw [appendImg_pids]
        exact hp
      have h2 : poolImgs (appendImg s₁ s.rendererPid i) p = poolImgs s p :=
        imgsIn_appendIn_ne s.rendererPid i p hrp s₁.pools
      rw [h1, h2]
    have himgs_ne : ∀ q, q ≠ p → q ≠ s.rendererPid →
        poolImgs (appendImg (appendImg s₁ s.rendererPid i) p i) q = poolImgs s q := by
      intro q hq1 hq2
      have h1 : poolImgs (appendImg (appendImg s₁ s.rendererPid i) p i) q =
          poolImgs (appendImg s₁ s.rendererPid i) q :=
        imgsIn_appendIn_ne p i q hq1 (appendImg s₁ s.rendererPid i).pools
      have h2 : poolImgs (appendImg s₁ s.rendererPid i) q = poolImgs s q :=
        imgsIn_appendIn_ne s.rendererPid i q hq2 s₁.pools
      rw [h1, h2]
    constructor
    · constructor
      · intro hr
        rw [hbelq]
        exact hWF.1 (by rw [hpids] at hr; exact hr)
      · intro j hj q hq
        rw [hpids]
        rw [hiids] at hj
        by_cases hji : j = i
        · subst hji
          rw [hparent_i] at hq
          have hqp : q = p := by
            have := hq
            simp only [Option.toList] at this
            simpa using this
          subst hqp
          exact hp
        · rw [hparent_ne j hji] at hq
          exact hWF.2 j hj q hq
    · intro q hq hbq
      rw [hpids] at hq
      rw [hbelq] at hbq
      have hqr : q ≠ s.rendererPid := by
        intro he
        have hb : belongsOf s s.rendererPid = true := hWF.1 (he ▸ hq)
        rw [← he, hbq] at hb
        cases hb
      by_cases hqp : q = p
      · subst hqp
        obtain ⟨hnd, hiff⟩ := hInv q hq hbel
        have hnotmem : i ∉ poolImgs s q := by
          intro hmem
          rw [(hiff i hi).mp hmem] at hpar0
          cases hpar0
        rw [himgs_p]
        constructor
        · rw [List.nodup_append]
          refine ⟨hnd, List.nodup_singleton i, ?_⟩
          intro a ha hb
          simp only [List.mem_singleton] at hb
          subst hb
          exact hnotmem ha
        · intro j hj
          rw [hiids] at hj
          by_cases hji : j = i
          · subst hji
            simp [hparent_i]
          · rw [hparent_ne j hji]
            have : (j ∈ poolImgs s q ++ [i]) ↔ j ∈ poolImgs s q := by
              simp [List.mem_append, hji]
            rw [this]
            exact hiff j hj
      · obtain ⟨hnd, hiff⟩ := hInv q hq hbq
        rw [himgs_ne q hqp hqr]
        refine ⟨hnd, ?_⟩
        intro j hj
        rw [hiids] at hj
        by_cases hji : j = i
        · subst hji
          constructor
          · intro hmem
            rw [(hiff j hj).mp hmem] at hpar0
            cases hpar0
          · intro hmem
            rw [hparent_i] at hmem
            have hpq : p = q := by injection hmem
            exact absurd hpq.symm hqp
        · rw [hparent_ne j hji]
          exact hiff j hj

theorem poolIAdd_cases (s : PoolSys) (p i : Nat) :
    poolIAdd s p i = s ∨
    poolIAdd s p i = appendImg s p i ∨
    poolIAdd s p i = appendImg (setParent s i (some p)) p i ∨
    poolIAdd s p i = appendImg (appendImg (setParent s i (some p)) s.rendererPid i) p i := by
  unfold poolIAdd rendererPoolAdd
  by_cases h1 : parentOf s i = some p
  · left
    rw [if_pos h1]
  · rw [if_neg h1]
    by_cases h2 : belongsOf s p = false
    · rw [if_pos h2]
      by_cases h3 : parentOf (setParent s i (some p)) i =
          some (setParent s i (some p)).rendererPid
      · right; right; left
        rw [if_pos h3]
      · right; right; right
        rw [if_neg h3]
        rfl
    · right; left
      rw [if_neg h2]

theorem poolIAdd_pids (s : PoolSys) (p i : Nat) :
    (poolIAdd s p i).pools.map Pool.pid = s.pools.map Pool.pid := by
  rcases poolIAdd_cases s p i with h | h | h | h <;> rw [h]
  · rw [appendImg_pids]
  · rw [appendImg_pids]
    rfl
  · rw [appendImg_pids, appendImg_pids]
    rfl

theorem poolIAdd_iids (s : PoolSys) (p i : Nat) :
    (poolIAdd s p i).images.map PImage.iid = s.images.map PImage.iid := by
  rcases poolIAdd_cases s p i with h | h | h | h <;> rw [h]
  · rfl
  · exact iids_setIn i (some p) s.images
  · exact iids_setIn i (some p) s.images

theorem poolIAdd_belongs (s : PoolSys) (p i q : Nat) :
    belongsOf (poolIAdd s p i) q = belongsOf s q := by
  rcases poolIAdd_cases s p i with h | h | h | h <;> rw [h]
  · rw [appendImg_belongs]
  · rw [appendImg_belongs]
    rfl
  · rw [appendImg_belongs, appendImg_belongs]
    rfl

theorem poolIAdd_parentOf_ne (s : PoolSys) (p i j : Nat) (hne : j ≠ i) :
    parentOf (poolIAdd s p i) j = parentOf s j := by
  rcases poolIAdd_cases s p i with h | h | h | h <;> rw [h]
  · rfl
  · exact parentOf_setParent_ne s i (some p) j hne
  · exact parentOf_setParent_ne s i (some p) j hne

theorem poolIAdd_parentOf_self (s : PoolSys) (p i : Nat) :
    parentOf (poolIAdd s p i) i = parentOf s i ∨ parentOf (poolIAdd s p i) i = some p := by
  by_cases hi : i ∈ s.images.map PImage.iid
  · rcases poolIAdd_cases s p i with h | h | h | h <;> rw [h]
    · left; rfl
    · left; rfl
    · right; exact parentOf_setParent_self s i (some p) hi
    · right; exact parentOf_setParent_self s i (some p) hi
  · left
    have h1 : parentOf s i = none := parentIn_not_mem i s.images hi
    have h2 : parentOf (poolIAdd s p i) i = none := by
      apply parentIn_not_mem
      rw [show (poolIAdd s p i).images.map PImage.iid = s.images.map PImage.iid from
        poolIAdd_iids s p i]
      exact hi
    rw [h1, h2]

theorem iaddList_preserves (p : Nat) :
    ∀ (l : List Nat) (s : PoolSys), sysWF s → freePoolInvariant s →
      p ∈ s.pools.map Pool.pid →
      (∀ i ∈ l, i ∈ s.images.map PImage.iid ∧
        (belongsOf s p = false → (parentOf s i = none ∨ parentOf s i = some p))) →
      sysWF (poolIAddList s p l) ∧ freePoolInvariant (poolIAddList s p l) := by
  intro l
  induction l with
  | nil => intro s hWF hInv _ _; exact ⟨hWF, hInv⟩
  | cons a rest ih =>
      intro s hWF hInv hp hl
      have ha := hl a (List.mem_cons_self a rest)
      have hstep := iadd_preserves s p a hWF hInv hp ha.1 ha.2
      have hrec := ih (poolIAdd s p a) hstep.1 hstep.2
        (by rw [poolIAdd_pids]; exact hp)
        (by
          intro j hj
          have hj' := hl j (List.mem_cons_of_mem a hj)
          constructor
          · rw [poolIAdd_iids]; exact hj'.1
          · intro hb'
            rw [poolIAdd_belongs] at hb'
            by_cases hja : j = a
            · subst hja
              rcases poolIAdd_parentOf_self s p j with h | h
              · rw [h]; exact hj'.2 hb'
              · rw [h]; right; rfl
            · rw [poolIAdd_parentOf_ne s p a j hja]
              exact hj'.2 hb')
      exact hrec

theorem setRemove_preserves (s : PoolSys) (p i : Nat)
    (hWF : sysWF s) (hInv : freePoolInvariant s)
    (hbel : belongsOf s p = false) (hpar : parentOf s i = some p) :
    sysWF (removeImg (setParent s i none) p i) ∧
    freePoolInvariant (removeImg (setParent s i none) p i) := by
  have hi : i ∈ s.images.map PImage.iid := parentOf_some_mem s i p hpar
  have hppid : p ∈ s.pools.map Pool.pid := sysWF_parent s hWF i p hi hpar
  obtain ⟨hndp, hiffp⟩ := hInv p hppid hbel
  have hpids : (removeImg (setParent s i none) p i).pools.map Pool.pid =
      s.pools.map Pool.pid := removeImg_pids (setParent s i none) p i
  have hbelq : ∀ q, belongsOf (removeImg (setParent s i none) p i) q = belongsOf s q :=
    fun q => removeImg_belongs (setParent s i none) p i q
  have hiids : (removeImg (setParent s i none) p i).images.map PImage.iid =
      s.images.map PImage.iid := iids_setIn i none s.images
  have hparent_ne : ∀ j, j ≠ i →
      parentOf (removeImg (setParent s i none) p i) j = parentOf s j :=
    fun j hj => parentOf_setParent_ne s i none j hj
  have hparent_i : parentOf (removeImg (setParent s i none) p i) i = none :=
    parentOf_setParent_self s i none hi
  have himgs_p : poolImgs (removeImg (setParent s i none) p i) p =
      (poolImgs s p).erase i := imgsIn_removeIn_self p i (setParent s i none).pools
  have himgs_ne : ∀ q, q ≠ p →
      poolImgs (removeImg (setParent s i none) p i) q = poolImgs s q :=
    fun q hq => imgsIn_removeIn_ne p i q hq (setParent s i none).pools
  constructor
  · constructor
    · intro hr
      rw [hbelq]
      exact hWF.1 (by rw [hpids] at hr; exact hr)
    · intro j hj q hq
      rw [hpids]
      rw [hiids] at hj
      by_cases hji : j = i
      · subst hji
        rw [hparent_i] at hq
        cases hq
      · rw [hparent_ne j hji] at hq
        exact hWF.2 j hj q hq
  · intro q hq hbq
    rw [hpids] at hq
    rw [hbelq] at hbq
    by_cases hqp : q = p
    · subst hqp
      rw [himgs_p]
      refine ⟨hndp.erase i, ?_⟩
      intro j hj
      rw [hiids] at hj
      by_cases hji : j = i
      · subst hji
        constructor
        · intro hmem
          exact absurd hmem (hndp.not_mem_erase)
        · intro hmem
          rw [hparent_i] at hmem
          cases hmem
      · rw [hparent_ne j hji]
        rw [hndp.mem_erase_iff]
        constructor
        · intro hmem
          exact (hiffp j hj).mp hmem.2
        · intro hmem
          exact ⟨hji, (hiffp j hj).mpr hmem⟩
    · obtain ⟨hnd, hiff⟩ := hInv q hq hbq
      rw [himgs_ne q hqp]
      refine ⟨hnd, ?_⟩
      intro j hj
      rw [hiids] at hj
      by_cases hji : j = i
      · subst hji
        constructor
        · intro hmem
          have := (hiff j hj).mp hmem
          rw [hpar] at this
          have hpq : p = q := by injection this
          exact absurd hpq.symm hqp
        · intro hmem
          rw [hparent_i] at hmem
          cases hmem
      · rw [hparent_ne j hji]
        exact hiff j hj

theorem isub_preserves (s : PoolSys) (p i : Nat)
    (hWF : sysWF s) (hInv : freePoolInvariant s) :
    sysWF (poolISub s p i).1 ∧ freePoolInvariant (poolISub s p i).1 := by
  by_cases hbel : belongsOf s p = true
  · by_cases hmem : i ∈ poolImgs s p
    · have hs : (poolISub s p i).1 = removeImg s p i := by
        unfold poolISub
        rw [if_pos hbel, if_pos hmem]
      rw [hs]
      exact nonfree_remove_preserves s p i hWF hInv hbel
    · have hs : (poolISub s p i).1 = s := by
        unfold poolISub
        rw [if_pos hbel, if_neg hmem]
      rw [hs]
      exact ⟨hWF, hInv⟩
  · have hbel' : belongsOf s p = false := by
      cases hb : belongsOf s p
      · rfl
      · exact absurd hb hbel
    by_cases hpar : parentOf s i = some p
    case neg =>
      have hs : (poolISub s p i).1 = s := by
        unfold poolISub
        rw [if_neg hbel, if_pos hpar]
      rw [hs]
      exact ⟨hWF, hInv⟩
    case pos =>
      have hi : i ∈ s.images.map PImage.iid := parentOf_some_mem s i p hpar
      have hppid : p ∈ s.pools.map Pool.pid := sysWF_parent s hWF i p hi hpar
      obtain ⟨hndp, hiffp⟩ := hInv p hppid hbel'
      have hmem : i ∈ poolImgs s p := (hiffp i hi).mpr hpar
      have hmem₁ : i ∈ poolImgs (setParent s i none) p := hmem
      have hs : poolISub s p i =
          rendererPoolSub (removeImg (setParent s i none) p i) i := by
        unfold poolISub
        rw [if_neg hbel, if_neg (by simpa using hpar), if_pos hmem₁]
      have h₂ := setRemove_preserves s p i hWF hInv hbel' hpar
      rw [hs]
      unfold rendererPoolSub
      by_cases hrmem : i ∈ poolImgs (removeImg (setParent s i none) p i)
          (removeImg (setParent s i none) p i).rendererPid
      · rw [if_pos hrmem]
        have hrbel : belongsOf (removeImg (setParent s i none) p i)
            (removeImg (setParent s i none) p i).rendererPid = true := by
          apply h₂.1.1
          exact poolImgs_mem_pids _ _ i hrmem
        exact nonfree_remove_preserves _ _ i h₂.1 h₂.2 hrbel
      · rw [if_neg hrmem]
        exact h₂

theorem mkPool_preserves (s : PoolSys) (p : Nat) (belongs : Bool) (init : List Nat)
    (hWF : sysWF s) (hInv : freePoolInvariant s)
    (hfresh : p ∉ s.pools.map Pool.pid)
    (hrp : belongs = false → p ≠ s.rendererPid)
    (hinit : belongs = false →
      init.Nodup ∧ ∀ i ∈ init, i ∈ s.images.map PImage.iid ∧ parentOf s i = none) :
    sysWF (mkImagePool s p belongs init) ∧ freePoolInvariant (mkImagePool s p belongs init) := by
  cases belongs with
  | true =>
      have hs : mkImagePool s p true init =
          { s with pools := s.pools ++ [⟨p, true, init⟩] } := by
        unfold mkImagePool
        simp
      rw [hs]
      have hpids : ({ s with pools := s.pools ++ [⟨p, true, init⟩] } :
          PoolSys).pools.map Pool.pid = s.pools.map Pool.pid ++ [p] := by
        simp
      constructor
      · constructor
        · intro hr
          rw [hpids] at hr
          rcases List.mem_append.mp hr with h | h
          · have : belongsOf ({ s with pools := s.pools ++ [⟨p, true, init⟩] } :
                PoolSys) s.rendererPid = belongsOf s s.rendererPid :=
              belongsIn_concat_mem s.rendererPid ⟨p, true, init⟩ s.pools h
            rw [this]
            exact hWF.1 h
          · simp only [List.mem_singleton] at h
            subst h
            exact belongsIn_concat_fresh ⟨s.rendererPid, true, init⟩ s.pools hfresh
        · intro j hj q hq
          rw [hpids]
          exact List.mem_append_left _ (hWF.2 j hj q hq)
      · intro q hq hbq
        rw [hpids] at hq
        rcases List.mem_append.mp hq with h | h
        · have hb : belongsOf ({ s with pools := s.pools ++ [⟨p, true, init⟩] } :
              PoolSys) q = belongsOf s q :=
            belongsIn_concat_mem q ⟨p, true, init⟩ s.pools h
          rw [hb] at hbq
          have himgs : poolImgs ({ s with pools := s.pools ++ [⟨p, true, init⟩] } :
              PoolSys) q = poolImgs s q :=
            imgsIn_concat_mem q ⟨p, true, init⟩ s.pools h
          obtain ⟨hnd, hiff⟩ := hInv q h hbq
          rw [himgs]
          exact ⟨hnd, hiff⟩
        · simp only [List.mem_singleton] at h
          subst h
          have hb : belongsOf ({ s with pools := s.pools ++ [⟨q, true, init⟩] } :
              PoolSys) q = true :=
            belongsIn_concat_fresh ⟨q, true, init⟩ s.pools hfresh
          rw [hb] at hbq
          cases hbq
  | false =>
      obtain ⟨hndinit, hinitall⟩ := hinit rfl
      have hrp' : p ≠ s.rendererPid := hrp rfl
      have hs : mkImagePool s p false init =
          init.foldl (fun t i => setParent t i (some p))
            { s with pools := s.pools ++ [⟨p, false, init⟩] } := by
        unfold mkImagePool
        simp
      rw [hs]
      set target := init.foldl (fun t i => setParent t i (some p))
        { s with pools := s.pools ++ [⟨p, false, init⟩] } with htarget
      have hpools : target.pools = s.pools ++ [⟨p, false, init⟩] :=
        foldSet_pools p init _
      have hpids : target.pools.map Pool.pid = s.pools.map Pool.pid ++ [p] := by
        rw [hpools]
        simp
      have hrend : target.rendererPid = s.rendererPid := foldSet_rendererPid p init _
      have hiids : target.images.map PImage.iid = s.images.map PImage.iid :=
        foldSet_iids p init _
      have hbel_mem : ∀ q ∈ s.pools.map Pool.pid, belongsOf target q = belongsOf s q := by
        intro q hqm
        rw [belongsOf, hpools]
        exact belongsIn_concat_mem q ⟨p, false, init⟩ s.pools hqm
      have hbel_p : belongsOf target p = false := by
        rw [belongsOf, hpools]
        exact belongsIn_concat_fresh ⟨p, false, init⟩ s.pools hfresh
      have himgs_mem : ∀ q ∈ s.pools.map Pool.pid, poolImgs target q = poolImgs s q := by
        intro q hqm
        rw [poolImgs, hpools]
        exact imgsIn_concat_mem q ⟨p, false, init⟩ s.pools hqm
      have himgs_p : poolImgs target p = init := by
        rw [poolImgs, hpools]
        exact imgsIn_concat_fresh ⟨p, false, init⟩ s.pools hfresh
      have hpar_mem : ∀ j ∈ init, parentOf target j = some p := by
        intro j hjm
        exact foldSet_parentOf_mem p j init _ hjm (hinitall j hjm).1
      have hpar_not : ∀ j, j ∉ init → parentOf target j = parentOf s j := by
        intro j hjm
        exact foldSet_parentOf_not_mem p j init _ hjm
      constructor
      · constructor
        · intro hr
          rw [hrend] at hr ⊢
          rw [hpids] at hr
          rcases List.mem_append.mp hr with h | h
          · rw [hbel_mem s.rendererPid h]
            exact hWF.1 h
          · simp only [List.mem_singleton] at h
            exact absurd h.symm hrp'
        · intro j hj q hq
          rw [hpids]
          rw [hiids] at hj
          by_cases hjin : j ∈ init
          · rw [hpar_mem j hjin] at hq
            have hqp : q = p := by
              have := hq
              simp only [Option.toList] at this
              simpa using this
            subst hqp
            exact List.mem_append_right _ (by simp)
          · rw [hpar_not j hjin] at hq
            exact List.mem_append_left _ (hWF.2 j hj q hq)
      · intro q hq hbq
        rw [hpids] at hq
        rcases List.mem_append.mp hq with h | h
        · rw [hbel_mem q h] at hbq
          obtain ⟨hnd, hiff⟩ := hInv q h hbq
          rw [himgs_mem q h]
          refine ⟨hnd, ?_⟩
          intro j hj
          rw [hiids] at hj
          by_cases hjin : j ∈ init
          · rw [hpar_mem j hjin]
            constructor
            · intro hmem
              have := (hiff j hj).mp hmem
              rw [(hinitall j hjin).2] at this
              cases this
            · intro hmem
              have hpq : p = q := by injection hmem
              subst hpq
              exact absurd h hfresh
          · rw [hpar_not j hjin]
            exact hiff j hj
        · simp only [List.mem_singleton] at h
          subst h
          rw [himgs_p]
          refine ⟨hndinit, ?_⟩
          intro j hj
          rw [hiids] at hj
          by_cases hjin : j ∈ init
          · rw [hpar_mem j hjin]
            simp [hjin]
          · rw [hpar_not j hjin]
            constructor
            · intro hmem
              exact absurd hmem hjin
            · intro hmem
              have := hWF.2 j hj q (by simp [hmem])
              exact absurd this hfresh

theorem poolStep_preserves (s s' : PoolSys) (hWF : sysWF s) (hInv : freePoolInvariant s)
    (h : PoolStep s s') : sysWF s' ∧ freePoolInvariant s' := by
  cases h with
  | mkPool p belongs init hfresh hrp hinit =>
      exact mkPool_preserves s p belongs init hWF hInv hfresh hrp hinit
  | iadd p i hp hi hguard => exact iadd_preserves s p i hWF hInv hp hi hguard
  | iaddList p l hp hl => exact iaddList_preserves p l s hWF hInv hp hl
  | isub p i hp hi => exact isub_preserves s p i hWF hInv

theorem noDouble_of_inv (s : PoolSys) (hInv : freePoolInvariant s) :
    noDoubleOwnership s := by
  intro q₁ h₁ q₂ h₂ hb₁ hb₂ i hi m₁ m₂
  have e₁ := ((hInv q₁ h₁ hb₁).2 i hi).mp m₁
  have e₂ := ((hInv q₂ h₂ hb₂).2 i hi).mp m₂
  rw [e₁] at e₂
  injection e₂

theorem poolTrace_preserves :
    ∀ t u : PoolSys, PoolTrace t u → sysWF t → freePoolInvariant t →
      sysWF u ∧ freePoolInvariant u := by
  intro t u htr
  induction htr with
  | refl t => intro h1 h2; exact ⟨h1, h2⟩
  | step a b c hstep _ ih =>
      intro h1 h2
      obtain ⟨w1, w2⟩ := poolStep_preserves a b h1 h2 hstep
      exact ih w1 w2

/-- C2 counterexample: from a consistent state holding one parentless image
and the renderer pool, constructing two free-standing pools over the same
image (a legal sequence of pool constructions) leaves the image in the
internal list of the first pool while its back-reference points at the
second: the two-way membership/back-reference invariant of the claim is
violated, and the image is held by two pools at once. -/
theorem pool_membership_counterexample :
    membershipInvariant ⟨0, [⟨1, none⟩], [⟨0, true, []⟩]⟩ ∧
    ¬ membershipInvariant
        (mkImagePool (mkImagePool ⟨0, [⟨1, none⟩], [⟨0, true, []⟩]⟩ 10 false [1])
          20 false [1]) := by decide

/-- C2 amended: for pools that are not renderer-owned, the two-way
membership/back-reference invariant (with duplicate-free internal lists)
and single-ownership hold after any sequence of pool operations, provided
each pool is built over and receives only images that are unowned or
already owned by the target pool; the renderer-owned mirror pool is
excluded, since by design it lists images whose back-references point at
their free-standing owners. -/
theorem pool_trace_invariant (s s' : PoolSys)
    (hWF : sysWF s) (hInv : freePoolInvariant s) (htr : PoolTrace s s') :
    sysWF s' ∧ freePoolInvariant s' ∧ noDoubleOwnership s' := by
  obtain ⟨w1, w2⟩ := poolTrace_preserves s s' htr hWF hInv
  exact ⟨w1, w2, noDouble_of_inv s' w2⟩

/-- Witness for the amended C2: starting from the renderer pool and two
parentless images, construct a free pool 10 over image 1, add image 2 to
it, then remove image 1; the invariant holds at the end. -/
theorem pool_trace_invariant_witness :
    sysWF ((poolISub (poolIAdd
        (mkImagePool ⟨0, [⟨1, none⟩, ⟨2, none⟩], [⟨0, true, []⟩]⟩ 10 false [1]) 10 2)
        10 1).1) ∧
    freePoolInvariant ((poolISub (poolIAdd
        (mkImagePool ⟨0, [⟨1, none⟩, ⟨2, none⟩], [⟨0, true, []⟩]⟩ 10 false [1]) 10 2)
        10 1).1) ∧
    noDoubleOwnership ((poolISub (poolIAdd
        (mkImagePool ⟨0, [⟨1, none⟩, ⟨2, none⟩], [⟨0, true, []⟩]⟩ 10 false [1]) 10 2)
        10 1).1) :=
  pool_trace_invariant ⟨0, [⟨1, none⟩, ⟨2, none⟩], [⟨0, true, []⟩]⟩ _
    (by decide) (by decide)
    (PoolTrace.step _ _ _
      (PoolStep.mkPool ⟨0, [⟨1, none⟩, ⟨2, none⟩], [⟨0, true, []⟩]⟩ 10 false [1]
        (by decide) (by decide) (by decide))
      (PoolTrace.step _ _ _
        (PoolStep.iadd
          (mkImagePool ⟨0, [⟨1, none⟩, ⟨2, none⟩], [⟨0, true, []⟩]⟩ 10 false [1]) 10 2
          (by decide) (by decide) (by decide))
        (PoolTrace.step _ _ _
          (PoolStep.isub (poolIAdd
            (mkImagePool ⟨0, [⟨1, none⟩, ⟨2, none⟩], [⟨0, true, []⟩]⟩ 10 false [1]) 10 2)
            10 1 (by decide) (by decide))
          (PoolTrace.refl _))))

/-- C3 counterexample: for the renderer-owned pool, adding an image that is
already a member appends a duplicate instead of warning and leaving the
pool unchanged: the membership test of __iadd__ is the back-reference
check image.parent == self, which never holds for a renderer-owned pool. -/
theorem pool_add_member_counterexample :
    (5 : Nat) ∈ poolImgs ⟨0, [⟨5, none⟩], [⟨0, true, [5]⟩]⟩ 0 ∧
    poolImgs (poolIAdd ⟨0, [⟨5, none⟩], [⟨0, true, [5]⟩]⟩ 0 5) 0 = [5, 5] := by decide

/-- C3 amended: for a pool that is not renderer-owned, += of an image whose
back-reference already points at the pool (which coincides with membership
whenever the two-way invariant holds) warns and leaves the whole state
unchanged, and -= of an image whose back-reference does not point at the
pool raises ValueError (the error kind the spec names InvariantError) and
leaves the state unchanged; for a renderer-owned pool, -= of a non-member
also raises ValueError and leaves the state unchanged, but += of a member
appends a duplicate. -/
theorem pool_member_add_remove (s : PoolSys) (p i : Nat) :
    (parentOf s i = some p → poolIAdd s p i = s) ∧
    (belongsOf s p = false → parentOf s i ≠ some p →
      poolISub s p i = (s, some PyErr.valueError)) ∧
    (belongsOf s p = true → i ∉ poolImgs s p →
      poolISub s p i = (s, some PyErr.valueError)) := by
  refine ⟨?_, ?_, ?_⟩
  · intro h
    unfold poolIAdd
    rw [if_pos h]
  · intro hb h
    unfold poolISub
    rw [if_neg (by rw [hb]; exact Bool.false_ne_true), if_pos h]
  · intro hb h
    unfold poolISub
    rw [if_pos hb, if_neg h]

/-- Witness for the amended C3 on a concrete state with a free pool 10
owning image 5 and the renderer pool 0 holding [5]: re-adding image 5 to
pool 10 is a no-op, removing the unowned image 6 from pool 10 raises
ValueError with the state unchanged, and removing the absent image 6 from
the renderer pool raises ValueError with the state unchanged. -/
theorem pool_member_add_remove_witness :
    (poolIAdd ⟨0, [⟨5, some 10⟩, ⟨6, none⟩], [⟨0, true, [5]⟩, ⟨10, false, [5]⟩]⟩ 10 5 =
      ⟨0, [⟨5, some 10⟩, ⟨6, none⟩], [⟨0, true, [5]⟩, ⟨10, false, [5]⟩]⟩) ∧
    (poolISub ⟨0, [⟨5, some 10⟩, ⟨6, none⟩], [⟨0, true, [5]⟩, ⟨10, false, [5]⟩]⟩ 10 6 =
      (⟨0, [⟨5, some 10⟩, ⟨6, none⟩], [⟨0, true, [5]⟩, ⟨10, false, [5]⟩]⟩,
        some PyErr.valueError)) ∧
    (poolISub ⟨0, [⟨5, some 10⟩, ⟨6, none⟩], [⟨0, true, [5]⟩, ⟨10, false, [5]⟩]⟩ 0 6 =
      (⟨0, [⟨5, some 10⟩, ⟨6, none⟩], [⟨0, true, [5]⟩, ⟨10, false, [5]⟩]⟩,
        some PyErr.valueError)) :=
  have t := pool_member_add_remove
    ⟨0, [⟨5, some 10⟩, ⟨6, none⟩], [⟨0, true, [5]⟩, ⟨10, false, [5]⟩]⟩ 10 6
  ⟨(pool_member_add_remove
      ⟨0, [⟨5, some 10⟩, ⟨6, none⟩], [⟨0, true, [5]⟩, ⟨10, false, [5]⟩]⟩ 10 5).1
      (by decide),
   t.2.1 (by decide) (by decide),
   (pool_member_add_remove
      ⟨0, [⟨5, some 10⟩, ⟨6, none⟩], [⟨0, true, [5]⟩, ⟨10, false, [5]⟩]⟩ 0 6).2.2
      (by decide) (by decide)⟩
